import Mathlib

/-!
Verification of the analysis-update algorithms of `dapy/filters/ensemble_kalman.py`.

The four ensemble Kalman filter analysis updates (perturbed-observation,
ensemble square-root, Woodbury ensemble square-root, localised ensemble
transform) are embedded shallowly over real matrices `Matrix (Fin N) (Fin D) ℝ`.
Rows are particles, columns are state (resp. observation) dimensions, matching
the numpy layout of the source.

The numerical library primitives the source treats as trusted external
collaborators (`numpy.linalg.eigh`, `numpy.linalg.svd`, `numpy.linalg.solve`,
`numpy.linalg.pinv`) are modelled by passing their outputs as extra arguments;
theorems that depend on their guarantees (orthonormality of eigenvectors,
validity of the decomposition, non-singular solve) take those guarantees as
hypotheses.  `x ** 0.5` on non-negative reals is `Real.sqrt`, `np.clip(x,
-np.inf, 1.)` is `min x 1`, and the `warnings.warn` side channel is modelled as
an explicit list of emitted warning values (the reported maximal eigenvalue).
-/

noncomputable section

open Matrix BigOperators

/-- Column-wise mean of an `N × D` ensemble matrix: embeds `Z.mean(0)`. -/
def colMean {N D : ℕ} (Z : Matrix (Fin N) (Fin D) ℝ) : Fin D → ℝ :=
  fun j => (∑ i, Z i j) / N

/-- Row-centred deviations `Z - Z.mean(0)` (numpy broadcasting of the column
mean over the rows). -/
def centered {N D : ℕ} (Z : Matrix (Fin N) (Fin D) ℝ) : Matrix (Fin N) (Fin D) ℝ :=
  Matrix.of fun i j => Z i j - colMean Z j

/-- Column-wise (population) standard deviation: embeds `Z.std(0)`. -/
def colStd {N D : ℕ} (Z : Matrix (Fin N) (Fin D) ℝ) : Fin D → ℝ :=
  fun j => Real.sqrt ((∑ i, (Z i j - colMean Z j) ^ 2) / N)

/-- Column-wise root mean square: embeds `(dZ**2).mean(0)**0.5`, the spread
returned by the deterministic square-root updates. -/
def rmsSpread {N D : ℕ} (dZ : Matrix (Fin N) (Fin D) ℝ) : Fin D → ℝ :=
  fun j => Real.sqrt ((∑ i, dZ i j ^ 2) / N)

/-- Embeds `np.clip(x, -np.inf, 1.)`. -/
def clipEigval (x : ℝ) : ℝ := min x 1

/-- The `warnings.warn` side channel of the square-root updates: when `warn`
is set and some eigenvalue exceeds `1.`, exactly one warning is emitted,
reporting the maximal eigenvalue (`eigval_m.max()`). -/
def eigClipWarnings {N : ℕ} (warn : Bool) (eigval : Fin N → ℝ) : List ℝ :=
  if h : warn = true ∧ ∃ i, 1 < eigval i then
    [Finset.univ.sup' ⟨h.2.choose, Finset.mem_univ _⟩ eigval]
  else []

/-- A `Fin`-indexed matrix as a list of row lists (used to state shape
properties of the returned ensembles). -/
def matrixToLists {m n : ℕ} (M : Matrix (Fin m) (Fin n) ℝ) : List (List ℝ) :=
  (List.finRange m).map fun i => (List.finRange n).map fun j => M i j

namespace EnsembleKalmanFilter

/-- Embeds `EnsembleKalmanFilter.analysis_update`.  `observation_sampler` is
the stochastic observation sampler supplied at construction (randomness
abstracted into the function), `pinv_dx` is the output of
`numpy.linalg.pinv(dx_forecast)` (a trusted external primitive). -/
def analysis_update {N Dz Dx : ℕ}
    (observation_sampler : Matrix (Fin N) (Fin Dz) ℝ → ℕ → Matrix (Fin N) (Fin Dx) ℝ)
    (z_forecast : Matrix (Fin N) (Fin Dz) ℝ) (x_observed : Fin Dx → ℝ)
    (time_index : ℕ) (pinv_dx : Matrix (Fin Dx) (Fin N) ℝ) :
    Matrix (Fin N) (Fin Dz) ℝ × (Fin Dz → ℝ) × (Fin Dz → ℝ) :=
  (z_forecast +
      (Matrix.of fun i j => x_observed j - observation_sampler z_forecast time_index i j)
        * pinv_dx * centered z_forecast,
   colMean (z_forecast +
      (Matrix.of fun i j => x_observed j - observation_sampler z_forecast time_index i j)
        * pinv_dx * centered z_forecast),
   colStd (z_forecast +
      (Matrix.of fun i j => x_observed j - observation_sampler z_forecast time_index i j)
        * pinv_dx * centered z_forecast))

end EnsembleKalmanFilter

namespace EnsembleSquareRootFilter

/-- Embeds `self.obser_noise_covar = obser_noise_matrix.dot(obser_noise_matrix.T)`. -/
def obser_noise_covar {Dx : ℕ} (obser_noise_matrix : Matrix (Fin Dx) (Fin Dx) ℝ) :
    Matrix (Fin Dx) (Fin Dx) ℝ :=
  obser_noise_matrix * obser_noise_matrixᵀ

/-- Embeds `c_matrix = dx_forecast.T.dot(dx_forecast) +
(n_particles - 1) * self.obser_noise_covar` (`N` is the number of particles). -/
def c_matrix {N Dx : ℕ} (dx_forecast : Matrix (Fin N) (Fin Dx) ℝ)
    (noise_covar : Matrix (Fin Dx) (Fin Dx) ℝ) : Matrix (Fin Dx) (Fin Dx) ℝ :=
  dx_forecastᵀ * dx_forecast + ((N : ℝ) - 1) • noise_covar

/-- Embeds `(eigvec_c / eigval_c).dot(eigvec_c.T)`, the eigendecomposition
based inverse used for both the gain and the `m` matrix. -/
def invFromEigh {n : ℕ} (eigval : Fin n → ℝ) (eigvec : Matrix (Fin n) (Fin n) ℝ) :
    Matrix (Fin n) (Fin n) ℝ :=
  (Matrix.of fun i j => eigvec i j / eigval j) * eigvecᵀ

/-- Embeds `k_gain = (eigvec_c / eigval_c).dot(eigvec_c.T).dot(
dx_forecast.T.dot(dz_forecast))`. -/
def k_gain {N Dz Dx : ℕ} (eigval_c : Fin Dx → ℝ)
    (eigvec_c : Matrix (Fin Dx) (Fin Dx) ℝ)
    (dx_forecast : Matrix (Fin N) (Fin Dx) ℝ)
    (dz_forecast : Matrix (Fin N) (Fin Dz) ℝ) : Matrix (Fin Dx) (Fin Dz) ℝ :=
  invFromEigh eigval_c eigvec_c * (dx_forecastᵀ * dz_forecast)

/-- Embeds `m_matrix = dx_forecast.dot(eigvec_c / eigval_c).dot(
eigvec_c.T).dot(dx_forecast.T)`. -/
def m_matrix {N Dx : ℕ} (eigval_c : Fin Dx → ℝ)
    (eigvec_c : Matrix (Fin Dx) (Fin Dx) ℝ)
    (dx_forecast : Matrix (Fin N) (Fin Dx) ℝ) : Matrix (Fin N) (Fin N) ℝ :=
  dx_forecast * (Matrix.of fun i j => eigvec_c i j / eigval_c j) * eigvec_cᵀ
    * dx_forecastᵀ

/-- Embeds `sqrt_matrix = (eigvec_m * abs(1 - np.clip(eigval_m, -np.inf, 1.))
** 0.5).dot(eigvec_m.T)` of the square-root update (note the `abs`). -/
def sqrt_matrix {N : ℕ} (eigval_m : Fin N → ℝ)
    (eigvec_m : Matrix (Fin N) (Fin N) ℝ) : Matrix (Fin N) (Fin N) ℝ :=
  (Matrix.of fun i j => eigvec_m i j * Real.sqrt |1 - clipEigval (eigval_m j)|)
    * eigvec_mᵀ

/-- The analysis mean `z_mean_forecast + (x_observed - x_mean_forecast).dot(k_gain)`. -/
def z_mean_analysis {N Dz Dx : ℕ} (z_forecast : Matrix (Fin N) (Fin Dz) ℝ)
    (x_forecast : Matrix (Fin N) (Fin Dx) ℝ) (x_observed : Fin Dx → ℝ)
    (eigval_c : Fin Dx → ℝ) (eigvec_c : Matrix (Fin Dx) (Fin Dx) ℝ) : Fin Dz → ℝ :=
  fun j => colMean z_forecast j +
    ((fun k => x_observed k - colMean x_forecast k) ᵥ*
      k_gain eigval_c eigvec_c (centered x_forecast) (centered z_forecast)) j

/-- The deterministic analysis deviations
`dz_analysis = sqrt_matrix.dot(dz_forecast)` as computed by
`EnsembleSquareRootFilter.analysis_update` (with `eigh_c`, `eigh_m` the
trusted `numpy.linalg.eigh` primitive applied to `c_matrix` and `m_matrix`). -/
def dz_analysis {N Dz Dx : ℕ}
    (observation_func : Matrix (Fin N) (Fin Dz) ℝ → ℕ → Matrix (Fin N) (Fin Dx) ℝ)
    (obser_noise_matrix : Matrix (Fin Dx) (Fin Dx) ℝ)
    (z_forecast : Matrix (Fin N) (Fin Dz) ℝ) (time_index : ℕ)
    (eigh_c : Matrix (Fin Dx) (Fin Dx) ℝ → (Fin Dx → ℝ) × Matrix (Fin Dx) (Fin Dx) ℝ)
    (eigh_m : Matrix (Fin N) (Fin N) ℝ → (Fin N → ℝ) × Matrix (Fin N) (Fin N) ℝ) :
    Matrix (Fin N) (Fin Dz) ℝ :=
  let x_forecast := observation_func z_forecast time_index
  let ec := eigh_c (c_matrix (centered x_forecast) (obser_noise_covar obser_noise_matrix))
  let em := eigh_m (m_matrix ec.1 ec.2 (centered x_forecast))
  sqrt_matrix em.1 em.2 * centered z_forecast

/-- Embeds `EnsembleSquareRootFilter.analysis_update`.  `observation_func` and
`obser_noise_matrix` are the construction parameters; `eigh_c` and `eigh_m`
model the trusted primitive `numpy.linalg.eigh` (returning eigenvalues and an
eigenvector matrix), applied to `c_matrix` and `m_matrix` respectively.  The
returned quadruple is (analysis ensemble, analysis mean, analysis spread,
emitted warnings). -/
def analysis_update {N Dz Dx : ℕ}
    (observation_func : Matrix (Fin N) (Fin Dz) ℝ → ℕ → Matrix (Fin N) (Fin Dx) ℝ)
    (obser_noise_matrix : Matrix (Fin Dx) (Fin Dx) ℝ) (warn : Bool)
    (z_forecast : Matrix (Fin N) (Fin Dz) ℝ) (x_observed : Fin Dx → ℝ)
    (time_index : ℕ)
    (eigh_c : Matrix (Fin Dx) (Fin Dx) ℝ → (Fin Dx → ℝ) × Matrix (Fin Dx) (Fin Dx) ℝ)
    (eigh_m : Matrix (Fin N) (Fin N) ℝ → (Fin N → ℝ) × Matrix (Fin N) (Fin N) ℝ) :
    Matrix (Fin N) (Fin Dz) ℝ × (Fin Dz → ℝ) × (Fin Dz → ℝ) × List ℝ :=
  let x_forecast := observation_func z_forecast time_index
  let ec := eigh_c (c_matrix (centered x_forecast) (obser_noise_covar obser_noise_matrix))
  let em := eigh_m (m_matrix ec.1 ec.2 (centered x_forecast))
  (Matrix.of fun i j =>
      z_mean_analysis z_forecast x_forecast x_observed ec.1 ec.2 j +
        dz_analysis observation_func obser_noise_matrix z_forecast time_index
          eigh_c eigh_m i j,
   z_mean_analysis z_forecast x_forecast x_observed ec.1 ec.2,
   rmsSpread (dz_analysis observation_func obser_noise_matrix z_forecast time_index
     eigh_c eigh_m),
   eigClipWarnings warn em.1)

end EnsembleSquareRootFilter

namespace WoodburyEnsembleSquareRootFilter

/-- The polymorphic observation-noise precision of the Woodbury filter:
`obser_noise_preci` may be a dense matrix (`obser_noise_preci_is_dense`), a
diagonal given as a vector, or an isotropic scalar. -/
inductive NoisePrecision (Dx : ℕ) where
  | dense (P : Matrix (Fin Dx) (Fin Dx) ℝ)
  | diagonal (p : Fin Dx → ℝ)
  | isotropic (c : ℝ)

/-- Embeds the branch on `obser_noise_preci_is_dense`:
`a_matrix = obser_noise_preci.dot(dx_forecast.T)` for a dense precision and
`a_matrix = (obser_noise_preci * dx_forecast).T` for the (numpy broadcast)
diagonal-vector and isotropic-scalar representations. -/
def a_matrix {N Dx : ℕ} :
    NoisePrecision Dx → Matrix (Fin N) (Fin Dx) ℝ → Matrix (Fin Dx) (Fin N) ℝ
  | .dense P, dx_forecast => P * dx_forecastᵀ
  | .diagonal p, dx_forecast => (Matrix.of fun i j => p j * dx_forecast i j)ᵀ
  | .isotropic c, dx_forecast => (Matrix.of fun i j => c * dx_forecast i j)ᵀ

/-- Embeds `c_matrix = dx_forecast.dot(a_matrix)`. -/
def c_matrix {N Dx : ℕ} (preci : NoisePrecision Dx)
    (dx_forecast : Matrix (Fin N) (Fin Dx) ℝ) : Matrix (Fin N) (Fin N) ℝ :=
  dx_forecast * a_matrix preci dx_forecast

/-- Embeds `d_matrix = (n_particles - 1) * np.eye(n_particles) + c_matrix`. -/
def d_matrix {N Dx : ℕ} (preci : NoisePrecision Dx)
    (dx_forecast : Matrix (Fin N) (Fin Dx) ℝ) : Matrix (Fin N) (Fin N) ℝ :=
  ((N : ℝ) - 1) • (1 : Matrix (Fin N) (Fin N) ℝ) + c_matrix preci dx_forecast

/-- Embeds `e_matrix = la.solve(d_matrix, c_matrix)`: for the non-singular
`d_matrix` the trusted solver returns `d_matrix⁻¹ ⬝ c_matrix`. -/
def e_matrix {N Dx : ℕ} (preci : NoisePrecision Dx)
    (dx_forecast : Matrix (Fin N) (Fin Dx) ℝ) : Matrix (Fin N) (Fin N) ℝ :=
  (d_matrix preci dx_forecast)⁻¹ * c_matrix preci dx_forecast

/-- Embeds `b_vector = dx_error.dot(a_matrix)` (here `dx_error = x_observed -
x_mean_forecast` is a length `D_x` vector). -/
def b_vector {N Dx : ℕ} (preci : NoisePrecision Dx) (dx_error : Fin Dx → ℝ)
    (dx_forecast : Matrix (Fin N) (Fin Dx) ℝ) : Fin N → ℝ :=
  dx_error ᵥ* a_matrix preci dx_forecast

/-- The analysis mean `z_mean_forecast +
(b_vector - b_vector.dot(e_matrix)).dot(dz_forecast) / (n_particles - 1)`. -/
def z_mean_analysis {N Dz Dx : ℕ} (z_forecast : Matrix (Fin N) (Fin Dz) ℝ)
    (x_forecast : Matrix (Fin N) (Fin Dx) ℝ) (x_observed : Fin Dx → ℝ)
    (preci : NoisePrecision Dx) : Fin Dz → ℝ :=
  fun j => colMean z_forecast j +
    ((b_vector preci (fun k => x_observed k - colMean x_forecast k)
          (centered x_forecast) -
        b_vector preci (fun k => x_observed k - colMean x_forecast k)
          (centered x_forecast) ᵥ* e_matrix preci (centered x_forecast)) ᵥ*
      centered z_forecast) j / ((N : ℝ) - 1)

/-- Embeds `m_matrix = (c_matrix - c_matrix.dot(e_matrix)) / (n_particles - 1)`. -/
def m_matrix {N Dx : ℕ} (preci : NoisePrecision Dx)
    (dx_forecast : Matrix (Fin N) (Fin Dx) ℝ) : Matrix (Fin N) (Fin N) ℝ :=
  ((N : ℝ) - 1)⁻¹ •
    (c_matrix preci dx_forecast - c_matrix preci dx_forecast * e_matrix preci dx_forecast)

/-- Embeds `sqrt_matrix = (eigvec_m * (1 - np.clip(eigval_m, -np.inf, 1.))
** 0.5).dot(eigvec_m.T)` (no `abs` safeguard in the Woodbury variant). -/
def sqrt_matrix {N : ℕ} (eigval_m : Fin N → ℝ)
    (eigvec_m : Matrix (Fin N) (Fin N) ℝ) : Matrix (Fin N) (Fin N) ℝ :=
  (Matrix.of fun i j => eigvec_m i j * Real.sqrt (1 - clipEigval (eigval_m j)))
    * eigvec_mᵀ

/-- Embeds `WoodburyEnsembleSquareRootFilter.analysis_update`; `eigh_m` models
`numpy.linalg.eigh` applied to `m_matrix`.  The returned quadruple is
(analysis ensemble, analysis mean, analysis spread, emitted warnings). -/
def analysis_update {N Dz Dx : ℕ}
    (observation_func : Matrix (Fin N) (Fin Dz) ℝ → ℕ → Matrix (Fin N) (Fin Dx) ℝ)
    (obser_noise_preci : NoisePrecision Dx) (warn : Bool)
    (z_forecast : Matrix (Fin N) (Fin Dz) ℝ) (x_observed : Fin Dx → ℝ)
    (time_index : ℕ)
    (eigh_m : Matrix (Fin N) (Fin N) ℝ → (Fin N → ℝ) × Matrix (Fin N) (Fin N) ℝ) :
    Matrix (Fin N) (Fin Dz) ℝ × (Fin Dz → ℝ) × (Fin Dz → ℝ) × List ℝ :=
  let x_forecast := observation_func z_forecast time_index
  let em := eigh_m (m_matrix obser_noise_preci (centered x_forecast))
  (Matrix.of fun i j =>
      z_mean_analysis z_forecast x_forecast x_observed obser_noise_preci j +
        (sqrt_matrix em.1 em.2 * centered z_forecast) i j,
   z_mean_analysis z_forecast x_forecast x_observed obser_noise_preci,
   rmsSpread (sqrt_matrix em.1 em.2 * centered z_forecast),
   eigClipWarnings warn em.1)

end WoodburyEnsembleSquareRootFilter

namespace LocalEnsembleTransformKalmanFilter

/-- Embeds `eff_inv_obs_var = localisation_weights / obs_noise_std**2`. -/
def eff_inv_obs_var {Dx : ℕ} (localisation_weights obs_noise_std : Fin Dx → ℝ) :
    Fin Dx → ℝ :=
  fun k => localisation_weights k / obs_noise_std k ^ 2

/-- Embeds `eigval_p_inv = np.ones(n_p) * (n_p - 1) / self.inflation_factor`
followed by `eigval_p_inv[:dx_forecast.shape[1]] += sing_val**2` (the numpy
singular-value vector has length `min n_p Dx`, so exactly the entries with
index below `Dx` receive a `sing_val**2` contribution). -/
def eigval_p_inv {N : ℕ} (Dx : ℕ) (inflation_factor : ℝ) (sing_val : Fin N → ℝ) :
    Fin N → ℝ :=
  fun i => ((N : ℝ) - 1) / inflation_factor +
    if (i : ℕ) < Dx then sing_val i ^ 2 else 0

/-- Embeds `dw_matrix = (n_p - 1)**0.5 *
(eigvec_p * eigval_p**0.5).dot(eigvec_p.T)`. -/
def dw_matrix {N : ℕ} (eigvec_p : Matrix (Fin N) (Fin N) ℝ) (eigval_p : Fin N → ℝ) :
    Matrix (Fin N) (Fin N) ℝ :=
  Real.sqrt ((N : ℝ) - 1) •
    ((Matrix.of fun i j => eigvec_p i j * Real.sqrt (eigval_p j)) * eigvec_pᵀ)

/-- Embeds `d_vector = (dx_forecast * eff_inv_obs_var).dot(
x_observed - x_mean_forecast)`. -/
def d_vector {N Dx : ℕ} (dx_forecast : Matrix (Fin N) (Fin Dx) ℝ)
    (eff_inv : Fin Dx → ℝ) (innovation : Fin Dx → ℝ) : Fin N → ℝ :=
  (Matrix.of fun i k => dx_forecast i k * eff_inv k) *ᵥ innovation

/-- Embeds `w_mean = eigvec_p.dot(eigval_p * eigvec_p.T.dot(d_vector))`. -/
def w_mean {N : ℕ} (eigvec_p : Matrix (Fin N) (Fin N) ℝ) (eigval_p : Fin N → ℝ)
    (d_vec : Fin N → ℝ) : Fin N → ℝ :=
  eigvec_p *ᵥ fun j => eigval_p j * (eigvec_pᵀ *ᵥ d_vec) j

/-- Embeds `LocalEnsembleTransformKalmanFilter.local_analysis_update`.  `svd`
models the trusted primitive `numpy.linalg.svd` applied to the scaled
deviations `dx_forecast * eff_inv_obs_var**0.5`, returning the orthonormal
`u` factor and the singular values (the discarded `vh` factor is not
modelled; singular values are padded to a length `N` vector, entries at
index `≥ min N Dx` being unused). -/
def local_analysis_update {N Dzl Dxl : ℕ} (inflation_factor : ℝ)
    (z_forecast : Matrix (Fin N) (Fin Dzl) ℝ)
    (x_forecast : Matrix (Fin N) (Fin Dxl) ℝ)
    (x_observed : Fin Dxl → ℝ) (obs_noise_std : Fin Dxl → ℝ)
    (localisation_weights : Fin Dxl → ℝ)
    (svd : Matrix (Fin N) (Fin Dxl) ℝ → Matrix (Fin N) (Fin N) ℝ × (Fin N → ℝ)) :
    Matrix (Fin N) (Fin Dzl) ℝ :=
  let dx_forecast := centered x_forecast
  let eff_inv := eff_inv_obs_var localisation_weights obs_noise_std
  let usv := svd (Matrix.of fun i k => dx_forecast i k * Real.sqrt (eff_inv k))
  let ev_p_inv := eigval_p_inv Dxl inflation_factor usv.2
  let ev_p := fun i => 1 / ev_p_inv i
  let dw := dw_matrix usv.1 ev_p
  let d_vec := d_vector dx_forecast eff_inv (fun k => x_observed k - colMean x_forecast k)
  let wm := w_mean usv.1 ev_p d_vec
  Matrix.of fun i j =>
    colMean z_forecast j +
      ((Matrix.of fun r s => wm s + dw r s) * centered z_forecast) i j

end LocalEnsembleTransformKalmanFilter

/-- Numpy broadcast subtraction of two one-dimensional arrays: succeeds when
the lengths agree or one operand has length `1` (which is then broadcast
against the other); otherwise numpy raises a broadcast error. -/
def npBroadcastSub (x y : List ℝ) : Except String (List ℝ) :=
  if x.length = y.length then Except.ok (List.zipWith (fun a b => a - b) x y)
  else if x.length = 1 then Except.ok (y.map fun b => x.headD 0 - b)
  else if y.length = 1 then Except.ok (x.map fun a => a - y.headD 0)
  else Except.error "operands could not be broadcast together"

namespace WoodburyEnsembleSquareRootFilter

/-- The Woodbury update with an observed vector of dynamic length, following
the numpy semantics of the source: the method performs no precondition
validation of its inputs.  `dx_error = x_observed - x_mean_forecast` is a
broadcast subtraction, the subsequent `b_vector = dx_error.dot(a_matrix)`
requires the operand lengths to agree, and `la.solve(d_matrix, c_matrix)`
raises `LinAlgError` when `d_matrix` is singular; errors arise, if at all,
from inside these numerical operations, while a length-`1` observed vector is
silently broadcast and (for a non-singular `d_matrix`) the update runs to
completion (here up to the analysis mean). -/
def analysis_update_dyn {N Dz Dx : ℕ}
    (observation_func : Matrix (Fin N) (Fin Dz) ℝ → ℕ → Matrix (Fin N) (Fin Dx) ℝ)
    (obser_noise_preci : NoisePrecision Dx)
    (z_forecast : Matrix (Fin N) (Fin Dz) ℝ) (x_observed : List ℝ)
    (time_index : ℕ) : Except String (Fin Dz → ℝ) :=
  let x_forecast := observation_func z_forecast time_index
  match npBroadcastSub x_observed
      ((List.finRange Dx).map fun k => colMean x_forecast k) with
  | Except.error e => Except.error e
  | Except.ok dx_error =>
    if h : dx_error.length = Dx then
      if (d_matrix obser_noise_preci (centered x_forecast)).det ≠ 0 then
        Except.ok fun j => colMean z_forecast j +
          ((b_vector obser_noise_preci
                (fun k => dx_error.get ⟨k.val, h.symm ▸ k.isLt⟩)
                (centered x_forecast) -
              b_vector obser_noise_preci
                (fun k => dx_error.get ⟨k.val, h.symm ▸ k.isLt⟩)
                (centered x_forecast) ᵥ* e_matrix obser_noise_preci
                (centered x_forecast)) ᵥ* centered z_forecast) j / ((N : ℝ) - 1)
      else Except.error "Singular matrix"
    else Except.error "shapes not aligned"

end WoodburyEnsembleSquareRootFilter

/-- The row-centred deviations of any ensemble sum to zero in every column. -/
lemma sum_centered {N D : ℕ} (hN : (N : ℝ) ≠ 0) (Z : Matrix (Fin N) (Fin D) ℝ)
    (j : Fin D) : ∑ i, centered Z i j = 0 := by
  simp only [centered, Matrix.of_apply, colMean, Finset.sum_sub_distrib,
    Finset.sum_const, Finset.card_univ, Fintype.card_fin, nsmul_eq_mul]
  field_simp

/-- Sum-of-squares expansion about an arbitrary shift. -/
lemma sum_sq_sub {N : ℕ} (v : Fin N → ℝ) (c : ℝ) :
    ∑ i, (v i - c) ^ 2 =
      (∑ i, v i ^ 2) - 2 * c * (∑ i, v i) + N * c ^ 2 := by
  have h : ∀ i : Fin N, (v i - c) ^ 2 = v i ^ 2 - 2 * c * v i + c ^ 2 :=
    fun i => by ring
  simp only [h, Finset.sum_add_distrib, Finset.sum_sub_distrib, Finset.sum_const,
    Finset.card_univ, Fintype.card_fin, nsmul_eq_mul, Finset.mul_sum]

/-- Variance decomposition: the mean square of the deviations about the mean
equals the mean square minus the squared mean. -/
lemma sum_sq_sub_mean {N : ℕ} (v : Fin N → ℝ) :
    ∑ i, (v i - (∑ k, v k) / N) ^ 2 =
      (∑ i, v i ^ 2) - N * ((∑ k, v k) / N) ^ 2 := by
  rcases Nat.eq_zero_or_pos N with hN | hN
  · subst hN; simp
  · have hN' : (N : ℝ) ≠ 0 := Nat.cast_ne_zero.mpr hN.ne'
    rw [sum_sq_sub]
    have h : (N : ℝ) * ((∑ k, v k) / N) = ∑ k, v k := by field_simp
    have h2 : 2 * ((∑ k, v k) / ↑N) * ∑ i, v i =
        2 * ((N : ℝ) * ((∑ k, v k) / N) ^ 2) := by
      rw [show ((N : ℝ) * ((∑ k, v k) / N) ^ 2) =
          ((N : ℝ) * ((∑ k, v k) / N)) * ((∑ k, v k) / N) by ring, h]
      ring
    rw [h2]; ring

/-- The root-mean-square of a deviations matrix agrees with the column-wise
standard deviation of the ensemble obtained by adding a mean row vector to it
exactly when every column of the deviations sums to zero. -/
lemma rmsSpread_eq_colStd_iff {N D : ℕ} (m : Fin D → ℝ)
    (dZ : Matrix (Fin N) (Fin D) ℝ) :
    rmsSpread dZ = colStd (Matrix.of fun i j => m j + dZ i j) ↔
      ∀ j, ∑ i, dZ i j = 0 := by
  rcases Nat.eq_zero_or_pos N with hN | hN
  · subst hN
    constructor
    · intro _ j; simp
    · intro _; funext j; simp [rmsSpread, colStd]
  · have hN' : (N : ℝ) ≠ 0 := Nat.cast_ne_zero.mpr hN.ne'
    have hmean : ∀ j, colMean (Matrix.of fun i j => m j + dZ i j) j =
        m j + (∑ i, dZ i j) / N := by
      intro j
      simp only [colMean, Matrix.of_apply, Finset.sum_add_distrib, Finset.sum_const,
        Finset.card_univ, Fintype.card_fin, nsmul_eq_mul]
      field_simp
      ring
    have hstd : ∀ j, colStd (Matrix.of fun i j => m j + dZ i j) j =
        Real.sqrt (((∑ i, dZ i j ^ 2) - N * ((∑ i, dZ i j) / N) ^ 2) / N) := by
      intro j
      unfold colStd
      rw [show ∑ i, ((Matrix.of fun i j => m j + dZ i j) i j -
            colMean (Matrix.of fun i j => m j + dZ i j) j) ^ 2 =
          ∑ i, (dZ i j - (∑ k, dZ k j) / N) ^ 2 from
        Finset.sum_congr rfl fun i _ => by rw [hmean]; simp only [Matrix.of_apply]; ring_nf,
        sum_sq_sub_mean]
    constructor
    · intro h j
      have hj := congrFun h j
      rw [hstd j] at hj
      unfold rmsSpread at hj
      have ha : 0 ≤ (∑ i, dZ i j ^ 2) / N := by positivity
      have hb : 0 ≤ ((∑ i, dZ i j ^ 2) - N * ((∑ i, dZ i j) / N) ^ 2) / N := by
        rw [← sum_sq_sub_mean]; positivity
      rw [Real.sqrt_inj ha hb] at hj
      have h2 : (∑ i, dZ i j ^ 2) =
          (∑ i, dZ i j ^ 2) - (N : ℝ) * ((∑ i, dZ i j) / N) ^ 2 := by
        have h3 := congrArg (fun x : ℝ => x * N) hj
        simpa [div_mul_cancel₀, hN'] using h3
      have hsq : (N : ℝ) * ((∑ i, dZ i j) / N) ^ 2 = 0 := by linarith
      rcases mul_eq_zero.mp hsq with h0 | h0
      · exact absurd h0 hN'
      · have := pow_eq_zero_iff (n := 2) (by norm_num) |>.mp h0
        exact (div_eq_zero_iff.mp this).resolve_right hN'
    · intro h
      funext j
      unfold rmsSpread
      rw [hstd j, h j]
      norm_num

/-- C2: For every forecast ensemble `Z_f`, observed vector `x` and time index
`t`, the perturbed-observation update returns the triple
`(Z_a, mean(Z_a), std(Z_a))` with
`Z_a = Z_f + (dX_err · pinv(dX)) · dZ`, where `X_f` is the observation
sampler's output, `dZ` and `dX` are the row-centred deviations, and
`dX_err = x - X_f`; the returned mean and spread are the column-wise sample
mean and standard deviation of the returned ensemble. -/
theorem C2_perturbed_observation_update {N Dz Dx : ℕ}
    (observation_sampler : Matrix (Fin N) (Fin Dz) ℝ → ℕ → Matrix (Fin N) (Fin Dx) ℝ)
    (z_forecast : Matrix (Fin N) (Fin Dz) ℝ) (x_observed : Fin Dx → ℝ)
    (time_index : ℕ) (pinv_dx : Matrix (Fin Dx) (Fin N) ℝ) :
    (EnsembleKalmanFilter.analysis_update observation_sampler z_forecast x_observed
        time_index pinv_dx).1 =
      z_forecast +
        (Matrix.of fun i j =>
            x_observed j - observation_sampler z_forecast time_index i j)
          * pinv_dx * centered z_forecast ∧
    (EnsembleKalmanFilter.analysis_update observation_sampler z_forecast x_observed
        time_index pinv_dx).2.1 =
      colMean (EnsembleKalmanFilter.analysis_update observation_sampler z_forecast
        x_observed time_index pinv_dx).1 ∧
    (EnsembleKalmanFilter.analysis_update observation_sampler z_forecast x_observed
        time_index pinv_dx).2.2 =
      colStd (EnsembleKalmanFilter.analysis_update observation_sampler z_forecast
        x_observed time_index pinv_dx).1 := by
  refine ⟨rfl, rfl, rfl⟩

/-- C5: The spread returned by the ensemble square-root update equals the
elementwise root mean square over particles of the deterministic analysis
deviations `dz_analysis`, and it coincides with the column-wise sample
standard deviation of the returned analysis ensemble exactly when every
column of `dz_analysis` sums to zero (so the two differ whenever some column
of the deviations has nonzero mean). -/
theorem C5_sqrt_spread_is_rms_of_deviations {N Dz Dx : ℕ}
    (observation_func : Matrix (Fin N) (Fin Dz) ℝ → ℕ → Matrix (Fin N) (Fin Dx) ℝ)
    (obser_noise_matrix : Matrix (Fin Dx) (Fin Dx) ℝ) (warn : Bool)
    (z_forecast : Matrix (Fin N) (Fin Dz) ℝ) (x_observed : Fin Dx → ℝ)
    (time_index : ℕ)
    (eigh_c : Matrix (Fin Dx) (Fin Dx) ℝ → (Fin Dx → ℝ) × Matrix (Fin Dx) (Fin Dx) ℝ)
    (eigh_m : Matrix (Fin N) (Fin N) ℝ → (Fin N → ℝ) × Matrix (Fin N) (Fin N) ℝ) :
    (EnsembleSquareRootFilter.analysis_update observation_func obser_noise_matrix
        warn z_forecast x_observed time_index eigh_c eigh_m).2.2.1 =
      rmsSpread (EnsembleSquareRootFilter.dz_analysis observation_func
        obser_noise_matrix z_forecast time_index eigh_c eigh_m) ∧
    ((EnsembleSquareRootFilter.analysis_update observation_func obser_noise_matrix
        warn z_forecast x_observed time_index eigh_c eigh_m).2.2.1 =
        colStd (EnsembleSquareRootFilter.analysis_update observation_func
          obser_noise_matrix warn z_forecast x_observed time_index eigh_c eigh_m).1 ↔
      ∀ j, ∑ i, EnsembleSquareRootFilter.dz_analysis observation_func
        obser_noise_matrix z_forecast time_index eigh_c eigh_m i j = 0) := by
  exact ⟨rfl, rmsSpread_eq_colStd_iff _ _⟩

/-- Behaviour of the warning side channel with `warn = true`: empty exactly
when no eigenvalue exceeds `1`, and otherwise a single warning reporting the
maximal eigenvalue. -/
lemma eigClipWarnings_spec {N : ℕ} (ev : Fin N → ℝ) :
    (eigClipWarnings true ev = [] ↔ ¬∃ i, 1 < ev i) ∧
      ((∃ i, 1 < ev i) →
        ∃ v, eigClipWarnings true ev = [v] ∧ (∀ i, ev i ≤ v) ∧ ∃ i, ev i = v) := by
  unfold eigClipWarnings
  by_cases h : ∃ i, 1 < ev i
  · rw [dif_pos ⟨rfl, h⟩]
    refine ⟨⟨fun hc => by simp at hc, fun hc => absurd h hc⟩, fun _ => ?_⟩
    refine ⟨_, rfl, fun i => Finset.le_sup' ev (Finset.mem_univ i), ?_⟩
    obtain ⟨b, _, hb⟩ := Finset.exists_mem_eq_sup' _ ev
    exact ⟨b, hb.symm⟩
  · rw [dif_neg (by tauto)]
    exact ⟨⟨fun _ => h, fun _ => rfl⟩, fun hc => absurd hc h⟩

/-- C3: With `warn = true`, the square-root (4.2) and Woodbury (4.3) updates
emit a warning exactly when some eigenvalue returned for the reduced-update
matrix `m` exceeds its theoretical bound `1`; in that case exactly one
warning is emitted per call and it reports the maximal eigenvalue observed;
the eigenvalues are clipped to at most `1` (`clipEigval`) and the update
still returns its analysis triple (it never aborts). -/
theorem C3_eigenvalue_clip_warning {N Dz Dx : ℕ}
    (observation_func : Matrix (Fin N) (Fin Dz) ℝ → ℕ → Matrix (Fin N) (Fin Dx) ℝ)
    (obser_noise_matrix : Matrix (Fin Dx) (Fin Dx) ℝ)
    (preci : WoodburyEnsembleSquareRootFilter.NoisePrecision Dx)
    (z_forecast : Matrix (Fin N) (Fin Dz) ℝ) (x_observed : Fin Dx → ℝ)
    (time_index : ℕ)
    (eigh_c : Matrix (Fin Dx) (Fin Dx) ℝ → (Fin Dx → ℝ) × Matrix (Fin Dx) (Fin Dx) ℝ)
    (eigh_m eigh_mw : Matrix (Fin N) (Fin N) ℝ → (Fin N → ℝ) × Matrix (Fin N) (Fin N) ℝ) :
    (EnsembleSquareRootFilter.analysis_update observation_func obser_noise_matrix
        true z_forecast x_observed time_index eigh_c eigh_m).2.2.2 =
      eigClipWarnings true
        (eigh_m (EnsembleSquareRootFilter.m_matrix
          (eigh_c (EnsembleSquareRootFilter.c_matrix
            (centered (observation_func z_forecast time_index))
            (EnsembleSquareRootFilter.obser_noise_covar obser_noise_matrix))).1
          (eigh_c (EnsembleSquareRootFilter.c_matrix
            (centered (observation_func z_forecast time_index))
            (EnsembleSquareRootFilter.obser_noise_covar obser_noise_matrix))).2
          (centered (observation_func z_forecast time_index)))).1 ∧
    (WoodburyEnsembleSquareRootFilter.analysis_update observation_func preci
        true z_forecast x_observed time_index eigh_mw).2.2.2 =
      eigClipWarnings true
        (eigh_mw (WoodburyEnsembleSquareRootFilter.m_matrix preci
          (centered (observation_func z_forecast time_index)))).1 ∧
    (∀ (M : ℕ) (ev : Fin M → ℝ),
      (eigClipWarnings true ev = [] ↔ ¬∃ i, 1 < ev i) ∧
        ((∃ i, 1 < ev i) →
          ∃ v, eigClipWarnings true ev = [v] ∧ (∀ i, ev i ≤ v) ∧ ∃ i, ev i = v)) ∧
    (∀ y : ℝ, clipEigval y ≤ 1) := by
  exact ⟨rfl, rfl, fun M ev => eigClipWarnings_spec ev, fun y => min_le_right y 1⟩

/-- C9: Because the eigenvalues are clipped from above at `1` before the
square root is taken, the radicand `1 - clipEigval y` is non-negative for
every real eigenvalue `y` returned by the symmetric eigendecomposition (the
`abs` in the square-root filter is redundant), so the square-root matrices
and the returned spreads of both deterministic updates are well defined real
values; in particular both returned spreads are non-negative everywhere. -/
theorem C9_clip_makes_radicand_nonneg :
    (∀ y : ℝ, 0 ≤ 1 - clipEigval y) ∧
    (∀ y : ℝ, |1 - clipEigval y| = 1 - clipEigval y) ∧
    (∀ (N Dz Dx : ℕ)
      (observation_func : Matrix (Fin N) (Fin Dz) ℝ → ℕ → Matrix (Fin N) (Fin Dx) ℝ)
      (obser_noise_matrix : Matrix (Fin Dx) (Fin Dx) ℝ) (warn : Bool)
      (z_forecast : Matrix (Fin N) (Fin Dz) ℝ) (x_observed : Fin Dx → ℝ)
      (time_index : ℕ)
      (eigh_c : Matrix (Fin Dx) (Fin Dx) ℝ → (Fin Dx → ℝ) × Matrix (Fin Dx) (Fin Dx) ℝ)
      (eigh_m : Matrix (Fin N) (Fin N) ℝ → (Fin N → ℝ) × Matrix (Fin N) (Fin N) ℝ)
      (j : Fin Dz),
      0 ≤ (EnsembleSquareRootFilter.analysis_update observation_func
        obser_noise_matrix warn z_forecast x_observed time_index eigh_c eigh_m).2.2.1 j) ∧
    (∀ (N Dz Dx : ℕ)
      (observation_func : Matrix (Fin N) (Fin Dz) ℝ → ℕ → Matrix (Fin N) (Fin Dx) ℝ)
      (preci : WoodburyEnsembleSquareRootFilter.NoisePrecision Dx) (warn : Bool)
      (z_forecast : Matrix (Fin N) (Fin Dz) ℝ) (x_observed : Fin Dx → ℝ)
      (time_index : ℕ)
      (eigh_m : Matrix (Fin N) (Fin N) ℝ → (Fin N → ℝ) × Matrix (Fin N) (Fin N) ℝ)
      (j : Fin Dz),
      0 ≤ (WoodburyEnsembleSquareRootFilter.analysis_update observation_func
        preci warn z_forecast x_observed time_index eigh_m).2.2.1 j) := by
  refine ⟨fun y => sub_nonneg.mpr (min_le_right y 1),
    fun y => abs_of_nonneg (sub_nonneg.mpr (min_le_right y 1)), ?_, ?_⟩
  · intro N Dz Dx observation_func obser_noise_matrix warn z_forecast x_observed
      time_index eigh_c eigh_m j
    exact Real.sqrt_nonneg _
  · intro N Dz Dx observation_func preci warn z_forecast x_observed time_index
      eigh_m j
    exact Real.sqrt_nonneg _

/-- The list-of-rows view of a `Fin`-indexed matrix has exactly `m` rows of
length `n` each. -/
lemma matrixToLists_shape {m n : ℕ} (M : Matrix (Fin m) (Fin n) ℝ) :
    (matrixToLists M).length = m ∧ ∀ r ∈ matrixToLists M, r.length = n := by
  refine ⟨by simp [matrixToLists], fun r hr => ?_⟩
  simp only [matrixToLists, List.mem_map] at hr
  obtain ⟨i, _, rfl⟩ := hr
  simp

/-- C8: For every strategy, the analysis ensemble returned by
`analysis_update` (resp. `local_analysis_update`) has exactly the shape
`(N, D_z)` of the input forecast ensemble: `N` rows, each of length `D_z`. -/
theorem C8_output_shape_matches_input :
    (∀ (N Dz Dx : ℕ)
      (observation_sampler : Matrix (Fin N) (Fin Dz) ℝ → ℕ → Matrix (Fin N) (Fin Dx) ℝ)
      (z_forecast : Matrix (Fin N) (Fin Dz) ℝ) (x_observed : Fin Dx → ℝ)
      (time_index : ℕ) (pinv_dx : Matrix (Fin Dx) (Fin N) ℝ),
      (matrixToLists (EnsembleKalmanFilter.analysis_update observation_sampler
          z_forecast x_observed time_index pinv_dx).1).length = N ∧
        ∀ r ∈ matrixToLists (EnsembleKalmanFilter.analysis_update observation_sampler
          z_forecast x_observed time_index pinv_dx).1, r.length = Dz) ∧
    (∀ (N Dz Dx : ℕ)
      (observation_func : Matrix (Fin N) (Fin Dz) ℝ → ℕ → Matrix (Fin N) (Fin Dx) ℝ)
      (obser_noise_matrix : Matrix (Fin Dx) (Fin Dx) ℝ) (warn : Bool)
      (z_forecast : Matrix (Fin N) (Fin Dz) ℝ) (x_observed : Fin Dx → ℝ)
      (time_index : ℕ)
      (eigh_c : Matrix (Fin Dx) (Fin Dx) ℝ → (Fin Dx → ℝ) × Matrix (Fin Dx) (Fin Dx) ℝ)
      (eigh_m : Matrix (Fin N) (Fin N) ℝ → (Fin N → ℝ) × Matrix (Fin N) (Fin N) ℝ),
      (matrixToLists (EnsembleSquareRootFilter.analysis_update observation_func
          obser_noise_matrix warn z_forecast x_observed time_index eigh_c
          eigh_m).1).length = N ∧
        ∀ r ∈ matrixToLists (EnsembleSquareRootFilter.analysis_update observation_func
          obser_noise_matrix warn z_forecast x_observed time_index eigh_c eigh_m).1,
          r.length = Dz) ∧
    (∀ (N Dz Dx : ℕ)
      (observation_func : Matrix (Fin N) (Fin Dz) ℝ → ℕ → Matrix (Fin N) (Fin Dx) ℝ)
      (preci : WoodburyEnsembleSquareRootFilter.NoisePrecision Dx) (warn : Bool)
      (z_forecast : Matrix (Fin N) (Fin Dz) ℝ) (x_observed : Fin Dx → ℝ)
      (time_index : ℕ)
      (eigh_m : Matrix (Fin N) (Fin N) ℝ → (Fin N → ℝ) × Matrix (Fin N) (Fin N) ℝ),
      (matrixToLists (WoodburyEnsembleSquareRootFilter.analysis_update
          observation_func preci warn z_forecast x_observed time_index
          eigh_m).1).length = N ∧
        ∀ r ∈ matrixToLists (WoodburyEnsembleSquareRootFilter.analysis_update
          observation_func preci warn z_forecast x_observed time_index eigh_m).1,
          r.length = Dz) ∧
    (∀ (N Dzl Dxl : ℕ) (inflation_factor : ℝ)
      (z_forecast : Matrix (Fin N) (Fin Dzl) ℝ)
      (x_forecast : Matrix (Fin N) (Fin Dxl) ℝ)
      (x_observed obs_noise_std localisation_weights : Fin Dxl → ℝ)
      (svd : Matrix (Fin N) (Fin Dxl) ℝ → Matrix (Fin N) (Fin N) ℝ × (Fin N → ℝ)),
      (matrixToLists (LocalEnsembleTransformKalmanFilter.local_analysis_update
          inflation_factor z_forecast x_forecast x_observed obs_noise_std
          localisation_weights svd)).length = N ∧
        ∀ r ∈ matrixToLists (LocalEnsembleTransformKalmanFilter.local_analysis_update
          inflation_factor z_forecast x_forecast x_observed obs_noise_std
          localisation_weights svd), r.length = Dzl) := by
  exact ⟨fun _ _ _ _ _ _ _ _ => matrixToLists_shape _,
    fun _ _ _ _ _ _ _ _ _ _ _ => matrixToLists_shape _,
    fun _ _ _ _ _ _ _ _ _ _ => matrixToLists_shape _,
    fun _ _ _ _ _ _ _ _ _ _ => matrixToLists_shape _⟩

/-- The dense representation of a diagonal precision computes the same
`a_matrix` as the diagonal-vector representation. -/
lemma a_matrix_dense_diagonal_eq {N Dx : ℕ} (p : Fin Dx → ℝ)
    (dx_forecast : Matrix (Fin N) (Fin Dx) ℝ) :
    WoodburyEnsembleSquareRootFilter.a_matrix
        (WoodburyEnsembleSquareRootFilter.NoisePrecision.dense (Matrix.diagonal p))
        dx_forecast =
      WoodburyEnsembleSquareRootFilter.a_matrix
        (WoodburyEnsembleSquareRootFilter.NoisePrecision.diagonal p) dx_forecast := by
  ext j i
  simp [WoodburyEnsembleSquareRootFilter.a_matrix, Matrix.diagonal_mul]

/-- The analysis mean of the Woodbury update does not depend on whether a
diagonal precision is supplied densely or as a vector. -/
lemma z_mean_analysis_dense_diagonal_eq {N Dz Dx : ℕ}
    (z_forecast : Matrix (Fin N) (Fin Dz) ℝ)
    (x_forecast : Matrix (Fin N) (Fin Dx) ℝ) (x_observed : Fin Dx → ℝ)
    (p : Fin Dx → ℝ) :
    WoodburyEnsembleSquareRootFilter.z_mean_analysis z_forecast x_forecast
        x_observed
        (WoodburyEnsembleSquareRootFilter.NoisePrecision.dense (Matrix.diagonal p)) =
      WoodburyEnsembleSquareRootFilter.z_mean_analysis z_forecast x_forecast
        x_observed
        (WoodburyEnsembleSquareRootFilter.NoisePrecision.diagonal p) := by
  funext j
  simp only [WoodburyEnsembleSquareRootFilter.z_mean_analysis,
    WoodburyEnsembleSquareRootFilter.b_vector,
    WoodburyEnsembleSquareRootFilter.e_matrix,
    WoodburyEnsembleSquareRootFilter.d_matrix,
    WoodburyEnsembleSquareRootFilter.c_matrix,
    a_matrix_dense_diagonal_eq]

/-- C6: For the Woodbury update, supplying a strictly positive diagonal
precision as a length `D_x` vector or as the corresponding dense diagonal
matrix yields identical results — the same analysis ensemble, analysis mean,
analysis spread and warnings — because both compute the same
`a_matrix = precision · dXᵀ` and all downstream algebra is shared. -/
theorem C6_precision_representation_equivalence {N Dz Dx : ℕ}
    (observation_func : Matrix (Fin N) (Fin Dz) ℝ → ℕ → Matrix (Fin N) (Fin Dx) ℝ)
    (p : Fin Dx → ℝ) (_hp : ∀ k, 0 < p k) (warn : Bool)
    (z_forecast : Matrix (Fin N) (Fin Dz) ℝ) (x_observed : Fin Dx → ℝ)
    (time_index : ℕ)
    (eigh_m : Matrix (Fin N) (Fin N) ℝ → (Fin N → ℝ) × Matrix (Fin N) (Fin N) ℝ) :
    WoodburyEnsembleSquareRootFilter.analysis_update observation_func
        (WoodburyEnsembleSquareRootFilter.NoisePrecision.dense (Matrix.diagonal p))
        warn z_forecast x_observed time_index eigh_m =
      WoodburyEnsembleSquareRootFilter.analysis_update observation_func
        (WoodburyEnsembleSquareRootFilter.NoisePrecision.diagonal p)
        warn z_forecast x_observed time_index eigh_m := by
  simp only [WoodburyEnsembleSquareRootFilter.analysis_update,
    WoodburyEnsembleSquareRootFilter.m_matrix,
    WoodburyEnsembleSquareRootFilter.e_matrix,
    WoodburyEnsembleSquareRootFilter.d_matrix,
    WoodburyEnsembleSquareRootFilter.c_matrix,
    z_mean_analysis_dense_diagonal_eq, a_matrix_dense_diagonal_eq]

/-- The zero ensemble has zero centred deviations. -/
lemma centered_zero {N D : ℕ} : centered (0 : Matrix (Fin N) (Fin D) ℝ) = 0 := by
  ext i j
  simp [centered, colMean]

/-- `d_matrix` at zero deviations. -/
lemma d_matrix_zero_dev {N Dx : ℕ}
    (preci : WoodburyEnsembleSquareRootFilter.NoisePrecision Dx) :
    WoodburyEnsembleSquareRootFilter.d_matrix preci
      (0 : Matrix (Fin N) (Fin Dx) ℝ) = ((N : ℝ) - 1) • 1 := by
  unfold WoodburyEnsembleSquareRootFilter.d_matrix
    WoodburyEnsembleSquareRootFilter.c_matrix
  simp

/-- C7 counterexample: a call whose observed vector has length `1` while the
observation dimension is `2` — an inconsistent shape — is not rejected: the
length-`1` vector is silently broadcast and the Woodbury update (with two
particles, so that `d_matrix = I + dX·P·dXᵀ` is non-singular and the solve
succeeds) computes to completion, returning an analysis result instead of an
invalid-input error. -/
theorem C7_counterexample_mismatch_not_rejected :
    ([(3 : ℝ)].length ≠ 2) ∧
      ∃ v, WoodburyEnsembleSquareRootFilter.analysis_update_dyn
        (fun (_ : Matrix (Fin 2) (Fin 1) ℝ) (_ : ℕ) => (0 : Matrix (Fin 2) (Fin 2) ℝ))
        (WoodburyEnsembleSquareRootFilter.NoisePrecision.isotropic 1)
        (0 : Matrix (Fin 2) (Fin 1) ℝ) [(3 : ℝ)] 0 = Except.ok v := by
  refine ⟨by simp, ?_⟩
  have hd : (WoodburyEnsembleSquareRootFilter.d_matrix
      (WoodburyEnsembleSquareRootFilter.NoisePrecision.isotropic 1)
      (centered (0 : Matrix (Fin 2) (Fin 2) ℝ))).det ≠ 0 := by
    rw [centered_zero, d_matrix_zero_dev]
    norm_num
  simp [WoodburyEnsembleSquareRootFilter.analysis_update_dyn, npBroadcastSub, hd]

/-- C7 amended: the analysis update performs no up-front shape validation and
signals no invalid-input error.  A call fails only when a numerical operation
inside the update fails: a non-broadcastable subtraction, a misaligned dot
product, or the linear solve on a singular `d_matrix`; an observed vector of
length `1` is silently broadcast against any observation dimension, and
whenever `d_matrix` is non-singular such a call completes normally. -/
theorem C7_no_upfront_shape_validation {N Dz Dx : ℕ}
    (observation_func : Matrix (Fin N) (Fin Dz) ℝ → ℕ → Matrix (Fin N) (Fin Dx) ℝ)
    (preci : WoodburyEnsembleSquareRootFilter.NoisePrecision Dx)
    (z_forecast : Matrix (Fin N) (Fin Dz) ℝ) (x_observed : List ℝ)
    (time_index : ℕ) :
    (∃ v, WoodburyEnsembleSquareRootFilter.analysis_update_dyn observation_func
        preci z_forecast x_observed time_index = Except.ok v) ↔
      ((x_observed.length = Dx ∨ x_observed.length = 1) ∧
        (WoodburyEnsembleSquareRootFilter.d_matrix preci
          (centered (observation_func z_forecast time_index))).det ≠ 0) := by
  by_cases hdet : (WoodburyEnsembleSquareRootFilter.d_matrix preci
      (centered (observation_func z_forecast time_index))).det = 0
  · by_cases h1 : x_observed.length = Dx
    · simp [WoodburyEnsembleSquareRootFilter.analysis_update_dyn, npBroadcastSub,
        h1, hdet, List.length_zipWith]
    · by_cases h2 : x_observed.length = 1
      · have hd1 : ¬(1 = Dx) := fun h => h1 (h2.trans h)
        simp [WoodburyEnsembleSquareRootFilter.analysis_update_dyn, npBroadcastSub,
          h1, h2, hd1, hdet]
      · by_cases h3 : Dx = 1
        · simp [WoodburyEnsembleSquareRootFilter.analysis_update_dyn, npBroadcastSub,
            h1, h2, h3, hdet]
        · simp [WoodburyEnsembleSquareRootFilter.analysis_update_dyn, npBroadcastSub,
            h1, h2, h3, hdet]
  · by_cases h1 : x_observed.length = Dx
    · simp [WoodburyEnsembleSquareRootFilter.analysis_update_dyn, npBroadcastSub,
        h1, hdet, List.length_zipWith]
    · by_cases h2 : x_observed.length = 1
      · have hd1 : ¬(1 = Dx) := fun h => h1 (h2.trans h)
        simp [WoodburyEnsembleSquareRootFilter.analysis_update_dyn, npBroadcastSub,
          h1, h2, hd1, hdet]
      · by_cases h3 : Dx = 1
        · simp [WoodburyEnsembleSquareRootFilter.analysis_update_dyn, npBroadcastSub,
            h1, h2, h3, hdet]
        · simp [WoodburyEnsembleSquareRootFilter.analysis_update_dyn, npBroadcastSub,
            h1, h2, h3, hdet]

/-- A vector multiplied by a scalar multiple of a matrix. -/
lemma vecMul_smul_matrix {m n : ℕ} (v : Fin m → ℝ) (s : ℝ)
    (M : Matrix (Fin m) (Fin n) ℝ) : v ᵥ* (s • M) = s • (v ᵥ* M) := by
  funext j
  simp only [Matrix.vecMul, Matrix.smul_apply, dotProduct, Pi.smul_apply,
    smul_eq_mul, Finset.mul_sum]
  exact Finset.sum_congr rfl fun i _ => by ring

/-- `(eigvec_c / eigval_c).dot(eigvec_c.T)` as a product with a diagonal
matrix of reciprocals. -/
lemma invFromEigh_eq {n : ℕ} (eigval : Fin n → ℝ)
    (eigvec : Matrix (Fin n) (Fin n) ℝ) :
    EnsembleSquareRootFilter.invFromEigh eigval eigvec =
      eigvec * Matrix.diagonal (fun j => (eigval j)⁻¹) * eigvecᵀ := by
  unfold EnsembleSquareRootFilter.invFromEigh
  congr 1
  ext i j
  simp [Matrix.mul_diagonal, div_eq_mul_inv]

/-- For a valid symmetric eigendecomposition with nonzero eigenvalues, the
reciprocal-eigenvalue form used by the square-root filter is a two-sided
inverse of the decomposed matrix. -/
lemma invFromEigh_mul {n : ℕ} {C : Matrix (Fin n) (Fin n) ℝ}
    {eigval : Fin n → ℝ} {eigvec : Matrix (Fin n) (Fin n) ℝ}
    (hV : eigvecᵀ * eigvec = 1)
    (hC : C = eigvec * Matrix.diagonal eigval * eigvecᵀ)
    (hval : ∀ j, eigval j ≠ 0) :
    EnsembleSquareRootFilter.invFromEigh eigval eigvec * C = 1 ∧
      C * EnsembleSquareRootFilter.invFromEigh eigval eigvec = 1 := by
  have hVV : eigvec * eigvecᵀ = 1 := Matrix.mul_eq_one_comm.mp hV
  have hcancel : ∀ X : Matrix (Fin n) (Fin n) ℝ, eigvecᵀ * (eigvec * X) = X :=
    fun X => by rw [← Matrix.mul_assoc, hV, Matrix.one_mul]
  have hDD : Matrix.diagonal (fun j => (eigval j)⁻¹) * Matrix.diagonal eigval = 1 := by
    rw [Matrix.diagonal_mul_diagonal,
      show (fun i => (eigval i)⁻¹ * eigval i) = fun _ => 1 from
        funext fun i => inv_mul_cancel₀ (hval i), Matrix.diagonal_one]
  have hDD' : Matrix.diagonal eigval * Matrix.diagonal (fun j => (eigval j)⁻¹) = 1 := by
    rw [Matrix.diagonal_mul_diagonal,
      show (fun i => eigval i * (eigval i)⁻¹) = fun _ => 1 from
        funext fun i => mul_inv_cancel₀ (hval i), Matrix.diagonal_one]
  rw [invFromEigh_eq, hC]
  constructor
  · simp only [Matrix.mul_assoc]
    rw [hcancel, ← Matrix.mul_assoc (Matrix.diagonal _), hDD, Matrix.one_mul, hVV]
  · simp only [Matrix.mul_assoc]
    rw [hcancel, ← Matrix.mul_assoc (Matrix.diagonal _), hDD', Matrix.one_mul, hVV]

/-- Push-through identity: `dXᵀ · d = C · (P · dXᵀ)` whenever `R · P = 1`,
relating the Woodbury matrix `d` to the square-root innovation covariance
`C = dXᵀ·dX + (N−1)·R`. -/
lemma dxT_mul_d_eq {N Dx : ℕ} (dX : Matrix (Fin N) (Fin Dx) ℝ)
    (R P : Matrix (Fin Dx) (Fin Dx) ℝ) (hRP : R * P = 1) :
    dXᵀ * WoodburyEnsembleSquareRootFilter.d_matrix
        (WoodburyEnsembleSquareRootFilter.NoisePrecision.dense P) dX =
      EnsembleSquareRootFilter.c_matrix dX R * (P * dXᵀ) := by
  simp only [WoodburyEnsembleSquareRootFilter.d_matrix,
    WoodburyEnsembleSquareRootFilter.c_matrix,
    WoodburyEnsembleSquareRootFilter.a_matrix,
    EnsembleSquareRootFilter.c_matrix]
  rw [Matrix.mul_add, Matrix.add_mul, Matrix.mul_smul, Matrix.mul_one,
    Matrix.smul_mul, ← Matrix.mul_assoc R P, hRP, Matrix.one_mul,
    ← Matrix.mul_assoc]
  exact add_comm _ _

/-- The square-root filter's eigendecomposition-based gain kernel agrees with
the Woodbury form `P · dXᵀ · d⁻¹`. -/
lemma invFromEigh_mul_dxT_eq {N Dx : ℕ} (dX : Matrix (Fin N) (Fin Dx) ℝ)
    (R P : Matrix (Fin Dx) (Fin Dx) ℝ) {eigval : Fin Dx → ℝ}
    {eigvec : Matrix (Fin Dx) (Fin Dx) ℝ}
    (hV : eigvecᵀ * eigvec = 1)
    (hC : EnsembleSquareRootFilter.c_matrix dX R =
      eigvec * Matrix.diagonal eigval * eigvecᵀ)
    (hval : ∀ j, eigval j ≠ 0) (hRP : R * P = 1)
    (hd : IsUnit (WoodburyEnsembleSquareRootFilter.d_matrix
      (WoodburyEnsembleSquareRootFilter.NoisePrecision.dense P) dX).det) :
    EnsembleSquareRootFilter.invFromEigh eigval eigvec * dXᵀ =
      P * dXᵀ * (WoodburyEnsembleSquareRootFilter.d_matrix
        (WoodburyEnsembleSquareRootFilter.NoisePrecision.dense P) dX)⁻¹ := by
  have hinv := invFromEigh_mul hV hC hval
  calc EnsembleSquareRootFilter.invFromEigh eigval eigvec * dXᵀ
      = EnsembleSquareRootFilter.invFromEigh eigval eigvec * dXᵀ *
        (WoodburyEnsembleSquareRootFilter.d_matrix
            (WoodburyEnsembleSquareRootFilter.NoisePrecision.dense P) dX *
          (WoodburyEnsembleSquareRootFilter.d_matrix
            (WoodburyEnsembleSquareRootFilter.NoisePrecision.dense P) dX)⁻¹) := by
        rw [Matrix.mul_nonsing_inv _ hd, Matrix.mul_one]
    _ = EnsembleSquareRootFilter.invFromEigh eigval eigvec *
        (dXᵀ * WoodburyEnsembleSquareRootFilter.d_matrix
          (WoodburyEnsembleSquareRootFilter.NoisePrecision.dense P) dX) *
        (WoodburyEnsembleSquareRootFilter.d_matrix
          (WoodburyEnsembleSquareRootFilter.NoisePrecision.dense P) dX)⁻¹ := by
        simp only [Matrix.mul_assoc]
    _ = EnsembleSquareRootFilter.invFromEigh eigval eigvec *
        (EnsembleSquareRootFilter.c_matrix dX R * (P * dXᵀ)) *
        (WoodburyEnsembleSquareRootFilter.d_matrix
          (WoodburyEnsembleSquareRootFilter.NoisePrecision.dense P) dX)⁻¹ := by
        rw [dxT_mul_d_eq dX R P hRP]
    _ = P * dXᵀ * (WoodburyEnsembleSquareRootFilter.d_matrix
        (WoodburyEnsembleSquareRootFilter.NoisePrecision.dense P) dX)⁻¹ := by
        rw [← Matrix.mul_assoc, ← Matrix.mul_assoc, hinv.1, Matrix.one_mul]

/-- Core algebraic equivalence: with a valid eigendecomposition of the
innovation covariance `C`, nonzero eigenvalues, precision inverse to the
noise covariance and a non-singular Woodbury matrix `d`, the Woodbury
analysis mean coincides with the square-root analysis mean. -/
lemma woodbury_sqrt_mean_core {N Dz Dx : ℕ}
    (z_forecast : Matrix (Fin N) (Fin Dz) ℝ)
    (x_forecast : Matrix (Fin N) (Fin Dx) ℝ)
    (x_observed : Fin Dx → ℝ) (P R : Matrix (Fin Dx) (Fin Dx) ℝ)
    {eigval : Fin Dx → ℝ} {eigvec : Matrix (Fin Dx) (Fin Dx) ℝ}
    (hV : eigvecᵀ * eigvec = 1)
    (hC : EnsembleSquareRootFilter.c_matrix (centered x_forecast) R =
      eigvec * Matrix.diagonal eigval * eigvecᵀ)
    (hval : ∀ j, eigval j ≠ 0) (hRP : R * P = 1)
    (hd : IsUnit (WoodburyEnsembleSquareRootFilter.d_matrix
      (WoodburyEnsembleSquareRootFilter.NoisePrecision.dense P)
      (centered x_forecast)).det)
    (hs : ((N : ℝ) - 1) ≠ 0) :
    WoodburyEnsembleSquareRootFilter.z_mean_analysis z_forecast x_forecast
        x_observed (WoodburyEnsembleSquareRootFilter.NoisePrecision.dense P) =
      EnsembleSquareRootFilter.z_mean_analysis z_forecast x_forecast x_observed
        eigval eigvec := by
  funext j
  simp only [WoodburyEnsembleSquareRootFilter.z_mean_analysis,
    WoodburyEnsembleSquareRootFilter.b_vector,
    WoodburyEnsembleSquareRootFilter.e_matrix,
    WoodburyEnsembleSquareRootFilter.c_matrix,
    WoodburyEnsembleSquareRootFilter.a_matrix,
    EnsembleSquareRootFilter.z_mean_analysis, EnsembleSquareRootFilter.k_gain]
  congr 1
  have hdc : WoodburyEnsembleSquareRootFilter.d_matrix
        (WoodburyEnsembleSquareRootFilter.NoisePrecision.dense P)
        (centered x_forecast) -
        centered x_forecast * (P * (centered x_forecast)ᵀ) =
      ((N : ℝ) - 1) • (1 : Matrix (Fin N) (Fin N) ℝ) := by
    simp only [WoodburyEnsembleSquareRootFilter.d_matrix,
      WoodburyEnsembleSquareRootFilter.c_matrix,
      WoodburyEnsembleSquareRootFilter.a_matrix]
    exact add_sub_cancel_right _ _
  have hae : P * (centered x_forecast)ᵀ -
      P * (centered x_forecast)ᵀ *
        ((WoodburyEnsembleSquareRootFilter.d_matrix
            (WoodburyEnsembleSquareRootFilter.NoisePrecision.dense P)
            (centered x_forecast))⁻¹ *
          (centered x_forecast * (P * (centered x_forecast)ᵀ))) =
      ((N : ℝ) - 1) • (P * (centered x_forecast)ᵀ *
        (WoodburyEnsembleSquareRootFilter.d_matrix
          (WoodburyEnsembleSquareRootFilter.NoisePrecision.dense P)
          (centered x_forecast))⁻¹) := by
    calc P * (centered x_forecast)ᵀ -
        P * (centered x_forecast)ᵀ *
          ((WoodburyEnsembleSquareRootFilter.d_matrix
              (WoodburyEnsembleSquareRootFilter.NoisePrecision.dense P)
              (centered x_forecast))⁻¹ *
            (centered x_forecast * (P * (centered x_forecast)ᵀ)))
        = P * (centered x_forecast)ᵀ *
          (1 - (WoodburyEnsembleSquareRootFilter.d_matrix
              (WoodburyEnsembleSquareRootFilter.NoisePrecision.dense P)
              (centered x_forecast))⁻¹ *
            (centered x_forecast * (P * (centered x_forecast)ᵀ))) := by
          rw [Matrix.mul_sub, Matrix.mul_one]
      _ = P * (centered x_forecast)ᵀ *
          ((WoodburyEnsembleSquareRootFilter.d_matrix
              (WoodburyEnsembleSquareRootFilter.NoisePrecision.dense P)
              (centered x_forecast))⁻¹ *
            WoodburyEnsembleSquareRootFilter.d_matrix
              (WoodburyEnsembleSquareRootFilter.NoisePrecision.dense P)
              (centered x_forecast) -
            (WoodburyEnsembleSquareRootFilter.d_matrix
              (WoodburyEnsembleSquareRootFilter.NoisePrecision.dense P)
              (centered x_forecast))⁻¹ *
            (centered x_forecast * (P * (centered x_forecast)ᵀ))) := by
          rw [Matrix.nonsing_inv_mul _ hd]
      _ = P * (centered x_forecast)ᵀ *
          ((WoodburyEnsembleSquareRootFilter.d_matrix
              (WoodburyEnsembleSquareRootFilter.NoisePrecision.dense P)
              (centered x_forecast))⁻¹ *
            (WoodburyEnsembleSquareRootFilter.d_matrix
              (WoodburyEnsembleSquareRootFilter.NoisePrecision.dense P)
              (centered x_forecast) -
              centered x_forecast * (P * (centered x_forecast)ᵀ))) := by
          rw [← Matrix.mul_sub]
      _ = P * (centered x_forecast)ᵀ *
          ((WoodburyEnsembleSquareRootFilter.d_matrix
              (WoodburyEnsembleSquareRootFilter.NoisePrecision.dense P)
              (centered x_forecast))⁻¹ *
            (((N : ℝ) - 1) • (1 : Matrix (Fin N) (Fin N) ℝ))) := by
          rw [hdc]
      _ = ((N : ℝ) - 1) • (P * (centered x_forecast)ᵀ *
          (WoodburyEnsembleSquareRootFilter.d_matrix
            (WoodburyEnsembleSquareRootFilter.NoisePrecision.dense P)
            (centered x_forecast))⁻¹) := by
          rw [Matrix.mul_smul, Matrix.mul_one, Matrix.mul_smul]
  rw [Matrix.vecMul_vecMul, ← Matrix.vecMul_sub, hae, vecMul_smul_matrix,
    Matrix.vecMul_smul, Pi.smul_apply, smul_eq_mul, mul_div_cancel_left₀ _ hs,
    Matrix.vecMul_vecMul, ← invFromEigh_mul_dxT_eq (centered x_forecast) R P
      hV hC hval hRP hd, Matrix.mul_assoc]

/-- C1: For every forecast ensemble with at least two particles, every time
index and deterministic observation function, the square-root update (4.2,
configured with noise transform `J`, covariance `R = J·Jᵀ`) and the Woodbury
update (4.3, configured with a dense precision `P` inverse to `R`) return the
same analysis mean, given the guarantees of the trusted primitives in exact
arithmetic: a valid orthonormal eigendecomposition of the innovation
covariance `c_matrix` with nonzero eigenvalues, and a non-singular linear
system matrix `d_matrix` (both hold for symmetric positive-definite `R`). -/
theorem C1_woodbury_and_sqrt_same_analysis_mean {N Dz Dx : ℕ}
    (observation_func : Matrix (Fin N) (Fin Dz) ℝ → ℕ → Matrix (Fin N) (Fin Dx) ℝ)
    (obser_noise_matrix P : Matrix (Fin Dx) (Fin Dx) ℝ) (warn warnw : Bool)
    (z_forecast : Matrix (Fin N) (Fin Dz) ℝ) (x_observed : Fin Dx → ℝ)
    (time_index : ℕ)
    (eigh_c : Matrix (Fin Dx) (Fin Dx) ℝ → (Fin Dx → ℝ) × Matrix (Fin Dx) (Fin Dx) ℝ)
    (eigh_m eigh_mw : Matrix (Fin N) (Fin N) ℝ → (Fin N → ℝ) × Matrix (Fin N) (Fin N) ℝ)
    (hN : 2 ≤ N)
    (hRP : EnsembleSquareRootFilter.obser_noise_covar obser_noise_matrix * P = 1)
    (hV : (eigh_c (EnsembleSquareRootFilter.c_matrix
        (centered (observation_func z_forecast time_index))
        (EnsembleSquareRootFilter.obser_noise_covar obser_noise_matrix))).2ᵀ *
      (eigh_c (EnsembleSquareRootFilter.c_matrix
        (centered (observation_func z_forecast time_index))
        (EnsembleSquareRootFilter.obser_noise_covar obser_noise_matrix))).2 = 1)
    (hC : EnsembleSquareRootFilter.c_matrix
        (centered (observation_func z_forecast time_index))
        (EnsembleSquareRootFilter.obser_noise_covar obser_noise_matrix) =
      (eigh_c (EnsembleSquareRootFilter.c_matrix
        (centered (observation_func z_forecast time_index))
        (EnsembleSquareRootFilter.obser_noise_covar obser_noise_matrix))).2 *
        Matrix.diagonal (eigh_c (EnsembleSquareRootFilter.c_matrix
          (centered (observation_func z_forecast time_index))
          (EnsembleSquareRootFilter.obser_noise_covar obser_noise_matrix))).1 *
        (eigh_c (EnsembleSquareRootFilter.c_matrix
          (centered (observation_func z_forecast time_index))
          (EnsembleSquareRootFilter.obser_noise_covar obser_noise_matrix))).2ᵀ)
    (hval : ∀ j, (eigh_c (EnsembleSquareRootFilter.c_matrix
      (centered (observation_func z_forecast time_index))
      (EnsembleSquareRootFilter.obser_noise_covar obser_noise_matrix))).1 j ≠ 0)
    (hd : IsUnit (WoodburyEnsembleSquareRootFilter.d_matrix
      (WoodburyEnsembleSquareRootFilter.NoisePrecision.dense P)
      (centered (observation_func z_forecast time_index))).det) :
    (WoodburyEnsembleSquareRootFilter.analysis_update observation_func
        (WoodburyEnsembleSquareRootFilter.NoisePrecision.dense P) warnw
        z_forecast x_observed time_index eigh_mw).2.1 =
      (EnsembleSquareRootFilter.analysis_update observation_func
        obser_noise_matrix warn z_forecast x_observed time_index eigh_c
        eigh_m).2.1 := by
  have hs : ((N : ℝ) - 1) ≠ 0 := by
    have h2 : (2 : ℝ) ≤ (N : ℝ) := by exact_mod_cast hN
    linarith
  exact woodbury_sqrt_mean_core z_forecast
    (observation_func z_forecast time_index) x_observed P
    (EnsembleSquareRootFilter.obser_noise_covar obser_noise_matrix)
    hV hC hval hRP hd hs

/-- Adding a scalar multiple of the centred deviations back onto the column
means leaves the column means unchanged. -/
lemma colMean_mean_add_smul_dev {N D : ℕ} (hN : (N : ℝ) ≠ 0)
    (Z : Matrix (Fin N) (Fin D) ℝ) (c : ℝ) :
    colMean (Matrix.of fun i j => colMean Z j + c * centered Z i j) =
      colMean Z := by
  funext j
  have hsum := sum_centered hN Z j
  simp only [colMean, Matrix.of_apply, Finset.sum_add_distrib, Finset.sum_const,
    Finset.card_univ, Fintype.card_fin, nsmul_eq_mul, ← Finset.mul_sum]
  rw [show ∑ i, centered Z i j = 0 from hsum]
  field_simp

/-- Scaling the centred deviations by a non-negative scalar scales the
column-wise standard deviation by the same factor. -/
lemma colStd_mean_add_smul_dev {N D : ℕ} (hN : (N : ℝ) ≠ 0)
    (Z : Matrix (Fin N) (Fin D) ℝ) (c : ℝ) (hc : 0 ≤ c) :
    colStd (Matrix.of fun i j => colMean Z j + c * centered Z i j) =
      fun j => c * colStd Z j := by
  funext j
  have hmean := congrFun (colMean_mean_add_smul_dev hN Z c) j
  unfold colStd
  rw [hmean]
  have hinner : ∀ i, ((Matrix.of fun i j => colMean Z j + c * centered Z i j) i j -
      colMean Z j) ^ 2 = c ^ 2 * (Z i j - colMean Z j) ^ 2 := by
    intro i
    simp only [Matrix.of_apply, centered]
    ring
  rw [Finset.sum_congr rfl fun i _ => hinner i, ← Finset.mul_sum, mul_div_assoc,
    Real.sqrt_mul (sq_nonneg c), Real.sqrt_sq hc]

/-- C4: If every localisation weight is `0`, the localised ensemble transform
update divides by no zero divisor (the noise variances are nonzero and all
reduced-subspace eigenvalues `eigval_p_inv` are nonzero), the column means of
the returned local analysis ensemble equal the forecast column means, and its
column-wise standard deviation is the forecast standard deviation scaled by
`√inflation_factor`.  The `svd` hypotheses are the guarantees of the trusted
singular value decomposition of the scaled deviations: an orthonormal `u`
factor and singular values whose padded squares diagonalise the Gram matrix. -/
theorem C4_letkf_zero_weights_inflation_only {N Dzl Dxl : ℕ}
    (inflation_factor : ℝ)
    (z_forecast : Matrix (Fin N) (Fin Dzl) ℝ)
    (x_forecast : Matrix (Fin N) (Fin Dxl) ℝ)
    (x_observed obs_noise_std localisation_weights : Fin Dxl → ℝ)
    (svd : Matrix (Fin N) (Fin Dxl) ℝ → Matrix (Fin N) (Fin N) ℝ × (Fin N → ℝ))
    (hN : 2 ≤ N) (hstd : ∀ k, 0 < obs_noise_std k)
    (hinfl : 1 ≤ inflation_factor)
    (hw : localisation_weights = fun _ => 0)
    (hU : (svd (Matrix.of fun i k => centered x_forecast i k *
        Real.sqrt (LocalEnsembleTransformKalmanFilter.eff_inv_obs_var
          localisation_weights obs_noise_std k))).1ᵀ *
      (svd (Matrix.of fun i k => centered x_forecast i k *
        Real.sqrt (LocalEnsembleTransformKalmanFilter.eff_inv_obs_var
          localisation_weights obs_noise_std k))).1 = 1)
    (hsvd : (Matrix.of fun i k => centered x_forecast i k *
        Real.sqrt (LocalEnsembleTransformKalmanFilter.eff_inv_obs_var
          localisation_weights obs_noise_std k)) *
        (Matrix.of fun i k => centered x_forecast i k *
          Real.sqrt (LocalEnsembleTransformKalmanFilter.eff_inv_obs_var
            localisation_weights obs_noise_std k))ᵀ =
      (svd (Matrix.of fun i k => centered x_forecast i k *
          Real.sqrt (LocalEnsembleTransformKalmanFilter.eff_inv_obs_var
            localisation_weights obs_noise_std k))).1 *
        Matrix.diagonal (fun i : Fin N => if (i : ℕ) < Dxl then
          (svd (Matrix.of fun i k => centered x_forecast i k *
            Real.sqrt (LocalEnsembleTransformKalmanFilter.eff_inv_obs_var
              localisation_weights obs_noise_std k))).2 i ^ 2 else 0) *
        (svd (Matrix.of fun i k => centered x_forecast i k *
          Real.sqrt (LocalEnsembleTransformKalmanFilter.eff_inv_obs_var
            localisation_weights obs_noise_std k))).1ᵀ) :
    (∀ k, obs_noise_std k ^ 2 ≠ 0) ∧
    (∀ i, LocalEnsembleTransformKalmanFilter.eigval_p_inv Dxl inflation_factor
      (svd (Matrix.of fun i k => centered x_forecast i k *
        Real.sqrt (LocalEnsembleTransformKalmanFilter.eff_inv_obs_var
          localisation_weights obs_noise_std k))).2 i ≠ 0) ∧
    colMean (LocalEnsembleTransformKalmanFilter.local_analysis_update
      inflation_factor z_forecast x_forecast x_observed obs_noise_std
      localisation_weights svd) = colMean z_forecast ∧
    colStd (LocalEnsembleTransformKalmanFilter.local_analysis_update
      inflation_factor z_forecast x_forecast x_observed obs_noise_std
      localisation_weights svd) =
      fun j => Real.sqrt inflation_factor * colStd z_forecast j := by
  subst hw
  have hN' : (N : ℝ) ≠ 0 := Nat.cast_ne_zero.mpr (by omega)
  have hs1 : (0 : ℝ) < (N : ℝ) - 1 := by
    have h2 : (2 : ℝ) ≤ (N : ℝ) := by exact_mod_cast hN
    linarith
  have hr0 : (0 : ℝ) < inflation_factor := lt_of_lt_of_le one_pos hinfl
  set S : Matrix (Fin N) (Fin Dxl) ℝ :=
    Matrix.of fun i k => centered x_forecast i k *
      Real.sqrt (LocalEnsembleTransformKalmanFilter.eff_inv_obs_var
        (fun _ => 0) obs_noise_std k) with hSdef
  have heff : LocalEnsembleTransformKalmanFilter.eff_inv_obs_var
      (fun _ : Fin Dxl => (0 : ℝ)) obs_noise_std = fun _ => 0 := by
    funext k
    simp [LocalEnsembleTransformKalmanFilter.eff_inv_obs_var]
  have hS0 : S = 0 := by
    rw [hSdef]
    ext i k
    simp [heff]
  have hUdU : (svd S).1 * Matrix.diagonal
      (fun i : Fin N => if (i : ℕ) < Dxl then (svd S).2 i ^ 2 else 0) * (svd S).1ᵀ = 0 := by
    rw [← hsvd, hS0]
    simp
  have hdiag : Matrix.diagonal
      (fun i : Fin N => if (i : ℕ) < Dxl then (svd S).2 i ^ 2 else 0) = 0 := by
    calc Matrix.diagonal (fun i : Fin N => if (i : ℕ) < Dxl then (svd S).2 i ^ 2 else 0)
        = ((svd S).1ᵀ * (svd S).1) *
          Matrix.diagonal (fun i : Fin N => if (i : ℕ) < Dxl then (svd S).2 i ^ 2 else 0) *
          ((svd S).1ᵀ * (svd S).1) := by rw [hU]; simp
      _ = (svd S).1ᵀ * ((svd S).1 *
          Matrix.diagonal (fun i : Fin N => if (i : ℕ) < Dxl then (svd S).2 i ^ 2 else 0) *
          (svd S).1ᵀ) * (svd S).1 := by simp only [Matrix.mul_assoc]
      _ = 0 := by rw [hUdU]; simp
  have hpad : ∀ i : Fin N, (i : ℕ) < Dxl → (svd S).2 i ^ 2 = 0 := by
    intro i hi
    have hdi := congrFun (congrFun hdiag i) i
    simpa [Matrix.diagonal_apply_eq, hi] using hdi
  have heig : ∀ i, LocalEnsembleTransformKalmanFilter.eigval_p_inv Dxl
      inflation_factor (svd S).2 i = ((N : ℝ) - 1) / inflation_factor := by
    intro i
    unfold LocalEnsembleTransformKalmanFilter.eigval_p_inv
    by_cases hi : (i : ℕ) < Dxl
    · rw [if_pos hi, hpad i hi, add_zero]
    · rw [if_neg hi, add_zero]
  have heigne : ∀ i, LocalEnsembleTransformKalmanFilter.eigval_p_inv Dxl
      inflation_factor (svd S).2 i ≠ 0 := by
    intro i
    rw [heig i]
    exact div_ne_zero hs1.ne' hr0.ne'
  have hevp : (fun i => 1 / LocalEnsembleTransformKalmanFilter.eigval_p_inv Dxl
      inflation_factor (svd S).2 i) =
      fun _ => inflation_factor / ((N : ℝ) - 1) := by
    funext i
    rw [heig i, one_div_div]
  have hc : Real.sqrt ((N : ℝ) - 1) *
      Real.sqrt (inflation_factor / ((N : ℝ) - 1)) =
      Real.sqrt inflation_factor := by
    rw [← Real.sqrt_mul hs1.le]
    congr 1
    rw [mul_div_assoc']
    exact mul_div_cancel_left₀ _ hs1.ne'
  have hUU : (svd S).1 * (svd S).1ᵀ = 1 := Matrix.mul_eq_one_comm.mp hU
  have hdw : LocalEnsembleTransformKalmanFilter.dw_matrix (svd S).1
      (fun i => 1 / LocalEnsembleTransformKalmanFilter.eigval_p_inv Dxl
        inflation_factor (svd S).2 i) =
      Real.sqrt inflation_factor • (1 : Matrix (Fin N) (Fin N) ℝ) := by
    unfold LocalEnsembleTransformKalmanFilter.dw_matrix
    rw [hevp]
    have hofs : (Matrix.of fun i j => (svd S).1 i j *
        Real.sqrt (inflation_factor / ((N : ℝ) - 1))) =
        Real.sqrt (inflation_factor / ((N : ℝ) - 1)) • (svd S).1 := by
      ext i j
      simp [mul_comm]
    rw [hofs, Matrix.smul_mul, hUU, smul_smul, hc]
  have hdvec : LocalEnsembleTransformKalmanFilter.d_vector (centered x_forecast)
      (LocalEnsembleTransformKalmanFilter.eff_inv_obs_var (fun _ => 0)
        obs_noise_std)
      (fun k => x_observed k - colMean x_forecast k) = 0 := by
    unfold LocalEnsembleTransformKalmanFilter.d_vector
    rw [heff]
    funext i
    simp [Matrix.mulVec, dotProduct]
  have hwm : LocalEnsembleTransformKalmanFilter.w_mean (svd S).1
      (fun i => 1 / LocalEnsembleTransformKalmanFilter.eigval_p_inv Dxl
        inflation_factor (svd S).2 i) 0 = 0 := by
    unfold LocalEnsembleTransformKalmanFilter.w_mean
    funext i
    simp [Matrix.mulVec, dotProduct]
  have hres : LocalEnsembleTransformKalmanFilter.local_analysis_update
      inflation_factor z_forecast x_forecast x_observed obs_noise_std
      (fun _ => 0) svd =
      Matrix.of fun i j => colMean z_forecast j +
        Real.sqrt inflation_factor * centered z_forecast i j := by
    unfold LocalEnsembleTransformKalmanFilter.local_analysis_update
    simp only [← hSdef, hdvec, hwm, hdw]
    ext i j
    simp [Matrix.mul_apply, Matrix.one_apply, mul_ite, ite_mul, mul_zero,
      zero_mul, Finset.sum_ite_eq, Finset.mem_univ]
  refine ⟨fun k => pow_ne_zero 2 (hstd k).ne', heigne, ?_, ?_⟩
  · rw [hres]
    exact colMean_mean_add_smul_dev hN' z_forecast (Real.sqrt inflation_factor)
  · rw [hres]
    exact colStd_mean_add_smul_dev hN' z_forecast (Real.sqrt inflation_factor)
      (Real.sqrt_nonneg _)

/-- A nonzero real vector has positive self dot product. -/
lemma dotProduct_self_pos {n : ℕ} (v : Fin n → ℝ) (hv : v ≠ 0) :
    0 < v ⬝ᵥ v := by
  obtain ⟨i, hi⟩ := Function.ne_iff.mp hv
  unfold dotProduct
  exact Finset.sum_pos' (fun k _ => mul_self_nonneg _)
    ⟨i, Finset.mem_univ i, mul_self_pos.mpr hi⟩

/-- The quadratic form of a Gram matrix `dXᵀ·dX` is a self dot product. -/
lemma quadform_transpose_mul_self {N Dx : ℕ} (dX : Matrix (Fin N) (Fin Dx) ℝ)
    (v : Fin Dx → ℝ) :
    v ⬝ᵥ ((dXᵀ * dX) *ᵥ v) = (dX *ᵥ v) ⬝ᵥ (dX *ᵥ v) := by
  rw [← Matrix.mulVec_mulVec, Matrix.dotProduct_mulVec, Matrix.vecMul_transpose]

/-- The quadratic form of the Woodbury `c_matrix` with a diagonal precision is
a weighted sum of squares. -/
lemma quadform_c_matrix_diagonal {N Dx : ℕ} (p : Fin Dx → ℝ)
    (dX : Matrix (Fin N) (Fin Dx) ℝ) (v : Fin N → ℝ) :
    v ⬝ᵥ (WoodburyEnsembleSquareRootFilter.c_matrix
        (WoodburyEnsembleSquareRootFilter.NoisePrecision.diagonal p) dX *ᵥ v) =
      ∑ j, p j * ((v ᵥ* dX) j) ^ 2 := by
  unfold WoodburyEnsembleSquareRootFilter.c_matrix
    WoodburyEnsembleSquareRootFilter.a_matrix
  rw [← Matrix.mulVec_mulVec, Matrix.dotProduct_mulVec]
  unfold dotProduct Matrix.mulVec Matrix.vecMul dotProduct
  refine Finset.sum_congr rfl fun j _ => ?_
  simp only [Matrix.transpose_apply, Matrix.of_apply]
  rw [show ∑ i, p j * dX i j * v i = p j * ∑ i, v i * dX i j from by
    rw [Finset.mul_sum]; exact Finset.sum_congr rfl fun i _ => by ring]
  ring

/-- For a valid orthonormal eigendecomposition, the diagonal eigenvalue matrix
is the congruence transform of the decomposed matrix. -/
lemma eigh_diagonal_eq {n : ℕ} {C : Matrix (Fin n) (Fin n) ℝ}
    {eigval : Fin n → ℝ} {eigvec : Matrix (Fin n) (Fin n) ℝ}
    (hV : eigvecᵀ * eigvec = 1)
    (hC : C = eigvec * Matrix.diagonal eigval * eigvecᵀ) :
    Matrix.diagonal eigval = eigvecᵀ * C * eigvec := by
  rw [hC]
  have h : eigvecᵀ * (eigvec * Matrix.diagonal eigval * eigvecᵀ) * eigvec =
      (eigvecᵀ * eigvec) * Matrix.diagonal eigval * (eigvecᵀ * eigvec) := by
    simp only [Matrix.mul_assoc]
  rw [h, hV, Matrix.one_mul, Matrix.mul_one]

/-- Each eigenvalue returned by a valid orthonormal eigendecomposition is the
quadratic form of the decomposed matrix at the corresponding eigenvector
column. -/
lemma eigh_eigval_quadform {n : ℕ} {C : Matrix (Fin n) (Fin n) ℝ}
    {eigval : Fin n → ℝ} {eigvec : Matrix (Fin n) (Fin n) ℝ}
    (hV : eigvecᵀ * eigvec = 1)
    (hC : C = eigvec * Matrix.diagonal eigval * eigvecᵀ) (j : Fin n) :
    eigval j = (fun i => eigvec i j) ⬝ᵥ (C *ᵥ fun i => eigvec i j) := by
  have h1 : eigval j = (eigvecᵀ * C * eigvec) j j := by
    rw [← eigh_diagonal_eq hV hC, Matrix.diagonal_apply_eq]
  rw [h1]
  simp only [Matrix.mul_apply, Matrix.transpose_apply, dotProduct,
    Matrix.mulVec, Finset.sum_mul, Finset.mul_sum]
  rw [Finset.sum_comm]
  exact Finset.sum_congr rfl fun a _ => Finset.sum_congr rfl fun b _ => by ring

/-- Columns of an orthonormal matrix have unit norm. -/
lemma eigvec_col_sq_sum {n : ℕ} {eigvec : Matrix (Fin n) (Fin n) ℝ}
    (hV : eigvecᵀ * eigvec = 1) (j : Fin n) :
    ∑ i, eigvec i j ^ 2 = 1 := by
  have h := congrFun (congrFun hV j) j
  simp only [Matrix.mul_apply, Matrix.transpose_apply, Matrix.one_apply_eq] at h
  rw [← h]
  exact Finset.sum_congr rfl fun i _ => (sq (eigvec i j)).symm ▸ by ring

/-- If the decomposed matrix of a trusted SVD is zero and the `u` factor is
orthonormal, all padded squared singular values vanish. -/
lemma svd_pad_zero {N Dxl : ℕ} {S : Matrix (Fin N) (Fin Dxl) ℝ}
    {U : Matrix (Fin N) (Fin N) ℝ} {s : Fin N → ℝ}
    (hS0 : S = 0) (hU : Uᵀ * U = 1)
    (hsvd : S * Sᵀ = U * Matrix.diagonal
      (fun i : Fin N => if (i : ℕ) < Dxl then s i ^ 2 else 0) * Uᵀ) :
    ∀ i : Fin N, (i : ℕ) < Dxl → s i ^ 2 = 0 := by
  have hUdU : U * Matrix.diagonal
      (fun i : Fin N => if (i : ℕ) < Dxl then s i ^ 2 else 0) * Uᵀ = 0 := by
    rw [← hsvd, hS0]
    simp
  have hdiag : Matrix.diagonal
      (fun i : Fin N => if (i : ℕ) < Dxl then s i ^ 2 else 0) = 0 := by
    calc Matrix.diagonal (fun i : Fin N => if (i : ℕ) < Dxl then s i ^ 2 else 0)
        = (Uᵀ * U) * Matrix.diagonal
            (fun i : Fin N => if (i : ℕ) < Dxl then s i ^ 2 else 0) *
            (Uᵀ * U) := by rw [hU]; simp
      _ = Uᵀ * (U * Matrix.diagonal
            (fun i : Fin N => if (i : ℕ) < Dxl then s i ^ 2 else 0) * Uᵀ) * U := by
          simp only [Matrix.mul_assoc]
      _ = 0 := by rw [hUdU]; simp
  intro i hi
  have hdi := congrFun (congrFun hdiag i) i
  simpa [Matrix.diagonal_apply_eq, hi] using hdi

/-- A single-particle ensemble has identically zero centred deviations. -/
lemma centered_single_row {D : ℕ} (Z : Matrix (Fin 1) (Fin D) ℝ) :
    centered Z = 0 := by
  ext i j
  have hi : i = 0 := Fin.eq_zero i
  subst hi
  simp [centered, colMean]

/-- Self dot products of real vectors are non-negative. -/
lemma dotProduct_self_nonneg {n : ℕ} (v : Fin n → ℝ) : 0 ≤ v ⬝ᵥ v := by
  unfold dotProduct
  exact Finset.sum_nonneg fun i _ => mul_self_nonneg _

/-- C10: With at least two particles, a positive-definite observation-noise
covariance (4.2), a strictly positive diagonal precision (4.3), and a finite
`inflation_factor ≥ 1` (4.4), every divisor of the deterministic updates is
nonzero: all eigenvalues returned by a valid eigendecomposition of `c_matrix`
are nonzero, the solved matrix `d_matrix` is non-singular (nonzero
determinant, in particular nonzero), and all reduced-subspace eigenvalues
`eigval_p_inv` are nonzero.  With a single particle — permitted by the data
model — the centred deviations vanish identically, making the eigenvalues of
`c_matrix`, the matrix `d_matrix` and the `eigval_p_inv` vector all zero, so
those divisions and the linear solve are performed with zero divisors. -/
theorem C10_divisor_safety :
    (∀ (N Dz Dx Dxl : ℕ)
      (observation_func : Matrix (Fin N) (Fin Dz) ℝ → ℕ → Matrix (Fin N) (Fin Dx) ℝ)
      (obser_noise_matrix : Matrix (Fin Dx) (Fin Dx) ℝ) (p : Fin Dx → ℝ)
      (z_forecast : Matrix (Fin N) (Fin Dz) ℝ) (time_index : ℕ)
      (eigh_c : Matrix (Fin Dx) (Fin Dx) ℝ → (Fin Dx → ℝ) × Matrix (Fin Dx) (Fin Dx) ℝ)
      (inflation_factor : ℝ) (sing_val : Fin N → ℝ),
      2 ≤ N →
      (∀ v : Fin Dx → ℝ, v ≠ 0 → 0 < v ⬝ᵥ
        (EnsembleSquareRootFilter.obser_noise_covar obser_noise_matrix *ᵥ v)) →
      (∀ k, 0 < p k) → 1 ≤ inflation_factor →
      (eigh_c (EnsembleSquareRootFilter.c_matrix
          (centered (observation_func z_forecast time_index))
          (EnsembleSquareRootFilter.obser_noise_covar obser_noise_matrix))).2ᵀ *
        (eigh_c (EnsembleSquareRootFilter.c_matrix
          (centered (observation_func z_forecast time_index))
          (EnsembleSquareRootFilter.obser_noise_covar obser_noise_matrix))).2 = 1 →
      EnsembleSquareRootFilter.c_matrix
          (centered (observation_func z_forecast time_index))
          (EnsembleSquareRootFilter.obser_noise_covar obser_noise_matrix) =
        (eigh_c (EnsembleSquareRootFilter.c_matrix
          (centered (observation_func z_forecast time_index))
          (EnsembleSquareRootFilter.obser_noise_covar obser_noise_matrix))).2 *
          Matrix.diagonal (eigh_c (EnsembleSquareRootFilter.c_matrix
            (centered (observation_func z_forecast time_index))
            (EnsembleSquareRootFilter.obser_noise_covar obser_noise_matrix))).1 *
          (eigh_c (EnsembleSquareRootFilter.c_matrix
            (centered (observation_func z_forecast time_index))
            (EnsembleSquareRootFilter.obser_noise_covar obser_noise_matrix))).2ᵀ →
      ((∀ j, (eigh_c (EnsembleSquareRootFilter.c_matrix
          (centered (observation_func z_forecast time_index))
          (EnsembleSquareRootFilter.obser_noise_covar obser_noise_matrix))).1 j ≠ 0) ∧
        (WoodburyEnsembleSquareRootFilter.d_matrix
          (WoodburyEnsembleSquareRootFilter.NoisePrecision.diagonal p)
          (centered (observation_func z_forecast time_index))).det ≠ 0 ∧
        WoodburyEnsembleSquareRootFilter.d_matrix
          (WoodburyEnsembleSquareRootFilter.NoisePrecision.diagonal p)
          (centered (observation_func z_forecast time_index)) ≠ 0 ∧
        (∀ i, LocalEnsembleTransformKalmanFilter.eigval_p_inv Dxl
          inflation_factor sing_val i ≠ 0))) ∧
    (∀ (Dz Dx Dxl : ℕ)
      (observation_func : Matrix (Fin 1) (Fin Dz) ℝ → ℕ → Matrix (Fin 1) (Fin Dx) ℝ)
      (obser_noise_matrix : Matrix (Fin Dx) (Fin Dx) ℝ)
      (preci : WoodburyEnsembleSquareRootFilter.NoisePrecision Dx)
      (z_forecast : Matrix (Fin 1) (Fin Dz) ℝ) (time_index : ℕ)
      (eigh_c : Matrix (Fin Dx) (Fin Dx) ℝ → (Fin Dx → ℝ) × Matrix (Fin Dx) (Fin Dx) ℝ)
      (x_forecast_loc : Matrix (Fin 1) (Fin Dxl) ℝ)
      (obs_noise_std localisation_weights : Fin Dxl → ℝ)
      (svd : Matrix (Fin 1) (Fin Dxl) ℝ → Matrix (Fin 1) (Fin 1) ℝ × (Fin 1 → ℝ))
      (inflation_factor : ℝ),
      (eigh_c (EnsembleSquareRootFilter.c_matrix
          (centered (observation_func z_forecast time_index))
          (EnsembleSquareRootFilter.obser_noise_covar obser_noise_matrix))).2ᵀ *
        (eigh_c (EnsembleSquareRootFilter.c_matrix
          (centered (observation_func z_forecast time_index))
          (EnsembleSquareRootFilter.obser_noise_covar obser_noise_matrix))).2 = 1 →
      EnsembleSquareRootFilter.c_matrix
          (centered (observation_func z_forecast time_index))
          (EnsembleSquareRootFilter.obser_noise_covar obser_noise_matrix) =
        (eigh_c (EnsembleSquareRootFilter.c_matrix
          (centered (observation_func z_forecast time_index))
          (EnsembleSquareRootFilter.obser_noise_covar obser_noise_matrix))).2 *
          Matrix.diagonal (eigh_c (EnsembleSquareRootFilter.c_matrix
            (centered (observation_func z_forecast time_index))
            (EnsembleSquareRootFilter.obser_noise_covar obser_noise_matrix))).1 *
          (eigh_c (EnsembleSquareRootFilter.c_matrix
            (centered (observation_func z_forecast time_index))
            (EnsembleSquareRootFilter.obser_noise_covar obser_noise_matrix))).2ᵀ →
      (svd (Matrix.of fun i k => centered x_forecast_loc i k *
          Real.sqrt (LocalEnsembleTransformKalmanFilter.eff_inv_obs_var
            localisation_weights obs_noise_std k))).1ᵀ *
        (svd (Matrix.of fun i k => centered x_forecast_loc i k *
          Real.sqrt (LocalEnsembleTransformKalmanFilter.eff_inv_obs_var
            localisation_weights obs_noise_std k))).1 = 1 →
      (Matrix.of fun i k => centered x_forecast_loc i k *
          Real.sqrt (LocalEnsembleTransformKalmanFilter.eff_inv_obs_var
            localisation_weights obs_noise_std k)) *
        (Matrix.of fun i k => centered x_forecast_loc i k *
          Real.sqrt (LocalEnsembleTransformKalmanFilter.eff_inv_obs_var
            localisation_weights obs_noise_std k))ᵀ =
        (svd (Matrix.of fun i k => centered x_forecast_loc i k *
          Real.sqrt (LocalEnsembleTransformKalmanFilter.eff_inv_obs_var
            localisation_weights obs_noise_std k))).1 *
          Matrix.diagonal (fun i : Fin 1 => if (i : ℕ) < Dxl then
            (svd (Matrix.of fun i k => centered x_forecast_loc i k *
              Real.sqrt (LocalEnsembleTransformKalmanFilter.eff_inv_obs_var
                localisation_weights obs_noise_std k))).2 i ^ 2 else 0) *
          (svd (Matrix.of fun i k => centered x_forecast_loc i k *
            Real.sqrt (LocalEnsembleTransformKalmanFilter.eff_inv_obs_var
              localisation_weights obs_noise_std k))).1ᵀ →
      (centered z_forecast = 0 ∧
        (∀ j, (eigh_c (EnsembleSquareRootFilter.c_matrix
          (centered (observation_func z_forecast time_index))
          (EnsembleSquareRootFilter.obser_noise_covar obser_noise_matrix))).1 j = 0) ∧
        WoodburyEnsembleSquareRootFilter.d_matrix preci
          (centered (observation_func z_forecast time_index)) = 0 ∧
        (∀ i, LocalEnsembleTransformKalmanFilter.eigval_p_inv Dxl
          inflation_factor (svd (Matrix.of fun i k => centered x_forecast_loc i k *
            Real.sqrt (LocalEnsembleTransformKalmanFilter.eff_inv_obs_var
              localisation_weights obs_noise_std k))).2 i = 0))) := by
  constructor
  · intro N Dz Dx Dxl observation_func obser_noise_matrix p z_forecast time_index
      eigh_c inflation_factor sing_val hN hR hp hinfl hV hC
    have hs1 : (0 : ℝ) < (N : ℝ) - 1 := by
      have h2 : (2 : ℝ) ≤ (N : ℝ) := by exact_mod_cast hN
      linarith
    have hr0 : (0 : ℝ) < inflation_factor := lt_of_lt_of_le one_pos hinfl
    refine ⟨?_, ?_, ?_, ?_⟩
    · intro j
      set dX := centered (observation_func z_forecast time_index) with hdXdef
      set R := EnsembleSquareRootFilter.obser_noise_covar obser_noise_matrix
        with hRdef
      set C0 := EnsembleSquareRootFilter.c_matrix dX R with hC0def
      set ec := eigh_c C0 with hecdef
      have hq := eigh_eigval_quadform hV hC j
      rw [hq]
      apply ne_of_gt
      set col : Fin Dx → ℝ := fun i => ec.2 i j with hcoldef
      have hcol : col ≠ 0 := by
        intro h0
        have hz : ∀ i, ec.2 i j = 0 := fun i => congrFun h0 i
        have hsum := eigvec_col_sq_sum hV j
        simp [hz] at hsum
      have hCv : C0 *ᵥ col = (dXᵀ * dX) *ᵥ col + ((N : ℝ) - 1) • (R *ᵥ col) := by
        rw [hC0def]
        unfold EnsembleSquareRootFilter.c_matrix
        rw [Matrix.add_mulVec, Matrix.smul_mulVec_assoc]
      rw [hCv, dotProduct_add, dotProduct_smul, quadform_transpose_mul_self,
        smul_eq_mul]
      have h1 : 0 ≤ (dX *ᵥ col) ⬝ᵥ (dX *ᵥ col) := dotProduct_self_nonneg _
      have h3 : 0 < ((N : ℝ) - 1) * (col ⬝ᵥ (R *ᵥ col)) :=
        mul_pos hs1 (hR col hcol)
      linarith
    · intro hdet
      obtain ⟨v, hv0, hvd⟩ := Matrix.exists_mulVec_eq_zero_iff.mpr hdet
      have hpos : 0 < v ⬝ᵥ (WoodburyEnsembleSquareRootFilter.d_matrix
          (WoodburyEnsembleSquareRootFilter.NoisePrecision.diagonal p)
          (centered (observation_func z_forecast time_index)) *ᵥ v) := by
        unfold WoodburyEnsembleSquareRootFilter.d_matrix
        rw [Matrix.add_mulVec, Matrix.smul_mulVec_assoc, Matrix.one_mulVec,
          dotProduct_add, dotProduct_smul, quadform_c_matrix_diagonal,
          smul_eq_mul]
        have h1 : 0 < ((N : ℝ) - 1) * (v ⬝ᵥ v) :=
          mul_pos hs1 (dotProduct_self_pos v hv0)
        have h2 : 0 ≤ ∑ j, p j *
            ((v ᵥ* centered (observation_func z_forecast time_index)) j) ^ 2 :=
          Finset.sum_nonneg fun j _ =>
            mul_nonneg (hp j).le (sq_nonneg _)
        linarith
      rw [hvd, dotProduct_zero] at hpos
      exact lt_irrefl 0 hpos
    · intro h0
      have hdet : (WoodburyEnsembleSquareRootFilter.d_matrix
          (WoodburyEnsembleSquareRootFilter.NoisePrecision.diagonal p)
          (centered (observation_func z_forecast time_index))).det = 0 := by
        rw [h0]
        exact Matrix.det_zero ⟨⟨0, by omega⟩⟩
      obtain ⟨v, hv0, hvd⟩ := Matrix.exists_mulVec_eq_zero_iff.mpr hdet
      have hpos : 0 < v ⬝ᵥ (WoodburyEnsembleSquareRootFilter.d_matrix
          (WoodburyEnsembleSquareRootFilter.NoisePrecision.diagonal p)
          (centered (observation_func z_forecast time_index)) *ᵥ v) := by
        unfold WoodburyEnsembleSquareRootFilter.d_matrix
        rw [Matrix.add_mulVec, Matrix.smul_mulVec_assoc, Matrix.one_mulVec,
          dotProduct_add, dotProduct_smul, quadform_c_matrix_diagonal,
          smul_eq_mul]
        have h1 : 0 < ((N : ℝ) - 1) * (v ⬝ᵥ v) :=
          mul_pos hs1 (dotProduct_self_pos v hv0)
        have h2 : 0 ≤ ∑ j, p j *
            ((v ᵥ* centered (observation_func z_forecast time_index)) j) ^ 2 :=
          Finset.sum_nonneg fun j _ =>
            mul_nonneg (hp j).le (sq_nonneg _)
        linarith
      rw [hvd, dotProduct_zero] at hpos
      exact lt_irrefl 0 hpos
    · intro i
      unfold LocalEnsembleTransformKalmanFilter.eigval_p_inv
      have h1 : (0 : ℝ) < ((N : ℝ) - 1) / inflation_factor := div_pos hs1 hr0
      have h2 : (0 : ℝ) ≤ if (i : ℕ) < Dxl then sing_val i ^ 2 else 0 := by
        split
        · exact sq_nonneg _
        · exact le_refl 0
      exact ne_of_gt (by linarith)
  · intro Dz Dx Dxl observation_func obser_noise_matrix preci z_forecast
      time_index eigh_c x_forecast_loc obs_noise_std localisation_weights svd
      inflation_factor hV hC hU hsvd
    have hdx : centered (observation_func z_forecast time_index) = 0 :=
      centered_single_row _
    have hC0 : EnsembleSquareRootFilter.c_matrix
        (centered (observation_func z_forecast time_index))
        (EnsembleSquareRootFilter.obser_noise_covar obser_noise_matrix) = 0 := by
      unfold EnsembleSquareRootFilter.c_matrix
      rw [hdx]
      simp
    have hSL0 : (Matrix.of fun i k => centered x_forecast_loc i k *
        Real.sqrt (LocalEnsembleTransformKalmanFilter.eff_inv_obs_var
          localisation_weights obs_noise_std k)) =
        (0 : Matrix (Fin 1) (Fin Dxl) ℝ) := by
      ext i k
      simp [centered_single_row x_forecast_loc]
    have hpadL := svd_pad_zero hSL0 hU hsvd
    refine ⟨centered_single_row _, ?_, ?_, ?_⟩
    · intro j
      rw [eigh_eigval_quadform hV hC j, hC0, Matrix.zero_mulVec, dotProduct_zero]
    · unfold WoodburyEnsembleSquareRootFilter.d_matrix
        WoodburyEnsembleSquareRootFilter.c_matrix
      rw [hdx]
      simp
    · intro i
      unfold LocalEnsembleTransformKalmanFilter.eigval_p_inv
      rw [show ((1 : ℕ) : ℝ) - 1 = 0 by norm_num, zero_div]
      by_cases hi : (i : ℕ) < Dxl
      · rw [if_pos hi, hpadL i hi, add_zero]
      · rw [if_neg hi, add_zero]

/-- Witness for C2 at a concrete input. -/
theorem C2_witness :
    (EnsembleKalmanFilter.analysis_update (fun z _ => z)
        (0 : Matrix (Fin 1) (Fin 1) ℝ) (fun _ => 0) 0 0).1 =
      (0 : Matrix (Fin 1) (Fin 1) ℝ) +
        (Matrix.of fun i j => (0 : ℝ) - (0 : Matrix (Fin 1) (Fin 1) ℝ) i j) * 0 *
          centered (0 : Matrix (Fin 1) (Fin 1) ℝ) :=
  (C2_perturbed_observation_update (fun z _ => z) 0 (fun _ => 0) 0 0).1

/-- Witness for C5 at a concrete input. -/
theorem C5_witness :
    (EnsembleSquareRootFilter.analysis_update (fun z _ => z)
        (1 : Matrix (Fin 1) (Fin 1) ℝ) false (0 : Matrix (Fin 1) (Fin 1) ℝ)
        (fun _ => 0) 0 (fun _ => (0, 1)) (fun _ => (0, 1))).2.2.1 =
      rmsSpread (EnsembleSquareRootFilter.dz_analysis (fun z _ => z) 1
        (0 : Matrix (Fin 1) (Fin 1) ℝ) 0 (fun _ => (0, 1)) (fun _ => (0, 1))) :=
  (C5_sqrt_spread_is_rms_of_deviations (fun z _ => z) 1 false 0 (fun _ => 0) 0
    (fun _ => (0, 1)) (fun _ => (0, 1))).1

/-- Witness for C3 at a concrete input. -/
theorem C3_witness :
    (EnsembleSquareRootFilter.analysis_update (fun z _ => z)
        (1 : Matrix (Fin 1) (Fin 1) ℝ) true (0 : Matrix (Fin 1) (Fin 1) ℝ)
        (fun _ => 0) 0 (fun _ => (0, 1)) (fun _ => (0, 1))).2.2.2 =
      eigClipWarnings true (0 : Fin 1 → ℝ) :=
  (C3_eigenvalue_clip_warning (fun z _ => z) 1
    (WoodburyEnsembleSquareRootFilter.NoisePrecision.isotropic 1) 0
    (fun _ => 0) 0 (fun _ => (0, 1)) (fun _ => (0, 1)) (fun _ => (0, 1))).1

/-- Witness for C8 at a concrete input. -/
theorem C8_witness :
    (matrixToLists (EnsembleKalmanFilter.analysis_update (fun z _ => z)
        (0 : Matrix (Fin 1) (Fin 1) ℝ) (fun _ => 0) 0 0).1).length = 1 :=
  (C8_output_shape_matches_input.1 1 1 1 (fun z _ => z) 0 (fun _ => 0) 0 0).1

/-- Witness for C9 at concrete eigenvalues. -/
theorem C9_witness :
    0 ≤ 1 - clipEigval 2 ∧ |1 - clipEigval (-3)| = 1 - clipEigval (-3) :=
  ⟨C9_clip_makes_radicand_nonneg.1 2, C9_clip_makes_radicand_nonneg.2.1 (-3)⟩

/-- Witness for the amended C7 claim at a concrete input. -/
theorem C7_amended_witness :
    (∃ v, WoodburyEnsembleSquareRootFilter.analysis_update_dyn
        (fun (_ : Matrix (Fin 2) (Fin 1) ℝ) (_ : ℕ) =>
          (0 : Matrix (Fin 2) (Fin 2) ℝ))
        (WoodburyEnsembleSquareRootFilter.NoisePrecision.isotropic 1)
        (0 : Matrix (Fin 2) (Fin 1) ℝ) [(3 : ℝ)] 0 = Except.ok v) ↔
      (([(3 : ℝ)].length = 2 ∨ [(3 : ℝ)].length = 1) ∧
        (WoodburyEnsembleSquareRootFilter.d_matrix
          (WoodburyEnsembleSquareRootFilter.NoisePrecision.isotropic 1)
          (centered (0 : Matrix (Fin 2) (Fin 2) ℝ))).det ≠ 0) :=
  C7_no_upfront_shape_validation (fun _ _ => 0)
    (WoodburyEnsembleSquareRootFilter.NoisePrecision.isotropic 1) 0 [(3 : ℝ)] 0

/-- The covariance of the identity noise transform is the identity. -/
lemma obser_noise_covar_one {Dx : ℕ} :
    EnsembleSquareRootFilter.obser_noise_covar
      (1 : Matrix (Fin Dx) (Fin Dx) ℝ) = 1 := by
  simp [EnsembleSquareRootFilter.obser_noise_covar]

/-- `c_matrix` at zero deviations. -/
lemma c_matrix_zero_dev {N Dx : ℕ} (R : Matrix (Fin Dx) (Fin Dx) ℝ) :
    EnsembleSquareRootFilter.c_matrix (0 : Matrix (Fin N) (Fin Dx) ℝ) R =
      ((N : ℝ) - 1) • R := by
  unfold EnsembleSquareRootFilter.c_matrix
  simp

/-- The singleton vector of ones. -/
lemma vec_one_fin1 : ![(1 : ℝ)] = fun _ => 1 := by
  funext k
  fin_cases k
  rfl

/-- Witness for C6 at a concrete input. -/
theorem C6_witness :
    WoodburyEnsembleSquareRootFilter.analysis_update (fun z _ => z)
        (WoodburyEnsembleSquareRootFilter.NoisePrecision.dense
          (Matrix.diagonal (fun _ => (1 : ℝ))))
        false (0 : Matrix (Fin 1) (Fin 1) ℝ) (fun _ => 0) 0 (fun _ => (0, 1)) =
      WoodburyEnsembleSquareRootFilter.analysis_update (fun z _ => z)
        (WoodburyEnsembleSquareRootFilter.NoisePrecision.diagonal (fun _ => 1))
        false (0 : Matrix (Fin 1) (Fin 1) ℝ) (fun _ => 0) 0 (fun _ => (0, 1)) :=
  C6_precision_representation_equivalence (fun z _ => z) (fun _ => 1)
    (fun _ => one_pos) false 0 (fun _ => 0) 0 (fun _ => (0, 1))

/-- Witness for C1 at a concrete input. -/
theorem C1_witness :
    (WoodburyEnsembleSquareRootFilter.analysis_update (fun z _ => z)
        (WoodburyEnsembleSquareRootFilter.NoisePrecision.dense 1) false
        (0 : Matrix (Fin 2) (Fin 1) ℝ) (fun _ => 0) 0 (fun _ => (0, 1))).2.1 =
      (EnsembleSquareRootFilter.analysis_update (fun z _ => z) 1 false
        (0 : Matrix (Fin 2) (Fin 1) ℝ) (fun _ => 0) 0 (fun _ => (![1], 1))
        (fun _ => (0, 1))).2.1 := by
  refine C1_woodbury_and_sqrt_same_analysis_mean (fun z _ => z) 1 1 false false
    0 (fun _ => 0) 0 (fun _ => (![1], 1)) (fun _ => (0, 1)) (fun _ => (0, 1))
    (by norm_num) ?_ ?_ ?_ ?_ ?_
  · rw [obser_noise_covar_one, Matrix.one_mul]
  · show (1 : Matrix (Fin 1) (Fin 1) ℝ)ᵀ * 1 = 1
    simp
  · show EnsembleSquareRootFilter.c_matrix (centered (0 : Matrix (Fin 2) (Fin 1) ℝ))
        (EnsembleSquareRootFilter.obser_noise_covar 1) =
      (1 : Matrix (Fin 1) (Fin 1) ℝ) * Matrix.diagonal ![1] *
        (1 : Matrix (Fin 1) (Fin 1) ℝ)ᵀ
    rw [centered_zero, c_matrix_zero_dev, obser_noise_covar_one, vec_one_fin1,
      Matrix.diagonal_one, Matrix.transpose_one, Matrix.one_mul, Matrix.mul_one]
    norm_num
  · intro j
    show ![(1 : ℝ)] j ≠ 0
    fin_cases j
    norm_num
  · show IsUnit (WoodburyEnsembleSquareRootFilter.d_matrix
      (WoodburyEnsembleSquareRootFilter.NoisePrecision.dense 1)
      (centered (0 : Matrix (Fin 2) (Fin 1) ℝ))).det
    rw [centered_zero, d_matrix_zero_dev]
    norm_num

/-- Witness for C4 at a concrete input. -/
theorem C4_witness :
    colMean (LocalEnsembleTransformKalmanFilter.local_analysis_update 1
        (0 : Matrix (Fin 2) (Fin 1) ℝ) (0 : Matrix (Fin 2) (Fin 1) ℝ)
        (fun _ => 0) (fun _ => 1) (fun _ => 0) (fun _ => (1, 0))) =
      colMean (0 : Matrix (Fin 2) (Fin 1) ℝ) := by
  refine (C4_letkf_zero_weights_inflation_only 1 0 0 (fun _ => 0) (fun _ => 1)
    (fun _ => 0) (fun _ => (1, 0)) (by norm_num) (fun _ => one_pos) le_rfl rfl
    ?_ ?_).2.2.1
  · simp
  · ext i j
    simp [centered_zero, Matrix.mul_apply, Matrix.diagonal]

/-- Witness for C10 at concrete inputs (one per particle-count regime). -/
theorem C10_witness :
    (WoodburyEnsembleSquareRootFilter.d_matrix
        (WoodburyEnsembleSquareRootFilter.NoisePrecision.diagonal (fun _ => 1))
        (centered (0 : Matrix (Fin 2) (Fin 1) ℝ))).det ≠ 0 ∧
      WoodburyEnsembleSquareRootFilter.d_matrix
        (WoodburyEnsembleSquareRootFilter.NoisePrecision.isotropic 1)
        (centered (0 : Matrix (Fin 1) (Fin 1) ℝ)) = 0 := by
  constructor
  · refine (C10_divisor_safety.1 2 1 1 1 (fun z _ => z) 1 (fun _ => 1) 0 0
      (fun _ => (![1], 1)) 1 0 (by norm_num) ?_ (fun _ => one_pos) le_rfl
      ?_ ?_).2.1
    · intro v hv
      rw [obser_noise_covar_one, Matrix.one_mulVec]
      exact dotProduct_self_pos v hv
    · show (1 : Matrix (Fin 1) (Fin 1) ℝ)ᵀ * 1 = 1
      simp
    · show EnsembleSquareRootFilter.c_matrix
          (centered (0 : Matrix (Fin 2) (Fin 1) ℝ))
          (EnsembleSquareRootFilter.obser_noise_covar 1) =
        (1 : Matrix (Fin 1) (Fin 1) ℝ) * Matrix.diagonal ![1] *
          (1 : Matrix (Fin 1) (Fin 1) ℝ)ᵀ
      rw [centered_zero, c_matrix_zero_dev, obser_noise_covar_one, vec_one_fin1,
        Matrix.diagonal_one, Matrix.transpose_one, Matrix.one_mul,
        Matrix.mul_one]
      norm_num
  · refine (C10_divisor_safety.2 1 1 1 (fun z _ => z) 1
      (WoodburyEnsembleSquareRootFilter.NoisePrecision.isotropic 1) 0 0
      (fun _ => (![0], 1)) 0 (fun _ => 1) (fun _ => 1) (fun _ => (1, 0)) 1
      ?_ ?_ ?_ ?_).2.2.1
    · show (1 : Matrix (Fin 1) (Fin 1) ℝ)ᵀ * 1 = 1
      simp
    · show EnsembleSquareRootFilter.c_matrix
          (centered (0 : Matrix (Fin 1) (Fin 1) ℝ))
          (EnsembleSquareRootFilter.obser_noise_covar 1) =
        (1 : Matrix (Fin 1) (Fin 1) ℝ) * Matrix.diagonal ![0] *
          (1 : Matrix (Fin 1) (Fin 1) ℝ)ᵀ
      rw [centered_zero, c_matrix_zero_dev, obser_noise_covar_one]
      have h0 : ![(0 : ℝ)] = fun _ => 0 := by
        funext k
        fin_cases k
        rfl
      rw [h0]
      simp
    · show (1 : Matrix (Fin 1) (Fin 1) ℝ)ᵀ * 1 = 1
      simp
    · ext i j
      simp [centered_zero, Matrix.mul_apply, Matrix.diagonal]
